import Mathlib

/-!
Verification of the moocloze Cloze-markup serialization library.

Text is modelled as `List Char` (abbreviated `Str`).  Python values that may be
coerced with `str(...)` are modelled by `PyVal`.  Each renderer below is a
direct translation of the corresponding `__str__` method of the source
(`moocloze/moocloze.py`); mutable attribute updates are modelled by returning
the updated record, and the in-place `random.shuffle` of `Multichoice` is
modelled by an explicit permutation parameter.
-/

namespace Moocloze

abbrev Str := List Char

/-- Decimal digit characters of a positive natural number, most significant
first; structural recursion on a fuel argument so that it evaluates in the
kernel.  Mirrors Python's `str` on a non-negative `int`. -/
def natReprAux : Nat → Nat → Str
  | 0, _ => []
  | fuel + 1, n => if n = 0 then [] else natReprAux fuel (n / 10) ++ [Nat.digitChar (n % 10)]

/-- Decimal representation of a natural number, as Python's `str`. -/
def natRepr (n : Nat) : Str :=
  if n = 0 then ['0'] else natReprAux n n

/-- Decimal representation of an integer, as Python's `str` on an `int`. -/
def intRepr (n : Int) : Str :=
  if n < 0 then '-' :: natRepr (-n).toNat else natRepr n.toNat

/-- Representation of a rational number: the model of numeric-to-text
conversion for `Numerical.answer` and `Numerical.tolerance` (the source uses
Python's natural decimal conversion; the claims only depend on this being a
fixed, colon-free rendering). -/
def ratRepr (q : ℚ) : Str :=
  if q.den = 1 then intRepr q.num else intRepr q.num ++ '/' :: natRepr q.den

/-- A Python value that the source may coerce with `str(...)`: either already
a string, or an integer. -/
inductive PyVal where
  | str (s : Str)
  | int (n : Int)
deriving DecidableEq, Repr

/-- Python's `str(...)` coercion on a `PyVal`. -/
def pyStrVal : PyVal → Str
  | .str s => s
  | .int n => intRepr n

/-- The list comprehension `[str(s) for s in l]` from the source. -/
def coerceList (l : List PyVal) : List PyVal :=
  l.map (fun v => PyVal.str (pyStrVal v))

/-- Python string comparison `<` (lexicographic on code points). -/
def lexLt : Str → Str → Bool
  | [], [] => false
  | [], _ :: _ => true
  | _ :: _, [] => false
  | a :: as, b :: bs => if a < b then true else if b < a then false else lexLt as bs

/-- Python tuple comparison `(text, flag) <= (text', flag')` with
`False < True`: the order used by `sorted` on the option pair lists. -/
def pairLeB (x y : Str × Bool) : Bool :=
  lexLt x.1 y.1 || (x.1 == y.1 && (!x.2 || y.2))

/-- The order `pairLeB` as a relation. -/
def pairLe (x y : Str × Bool) : Prop := pairLeB x y = true

instance : DecidableRel pairLe := fun x y => by unfold pairLe; infer_instance

/-- Python's `sorted` on the option pair lists.  `sorted` is a stable sort
with respect to a total order; since `pairLe` is a total order (ties in the
key are full equality of the pair), its output is the unique `pairLe`-sorted
permutation, which `List.insertionSort` computes. -/
def pySorted (l : List (Str × Bool)) : List (Str × Bool) :=
  List.insertionSort pairLe l

/-- Rendering of one `(text, correct)` option pair: `=text` or `text`. -/
def decorate (p : Str × Bool) : Str :=
  (if p.2 then ['='] else []) ++ p.1

/-- The `"~".join(...)` of the decorated option pairs. -/
def joinOptions (pairs : List (Str × Bool)) : Str :=
  List.intercalate ['~'] (pairs.map decorate)

/-- The `Numerical` dataclass. -/
structure Numerical where
  answer : ℚ
  tolerance : ℚ := 0
  show_tolerance : Bool := true
  weight : Int := 1
deriving DecidableEq

/-- Translation of `Numerical.__str__`. -/
def numericalChars (n : Numerical) : Str :=
  let s := '\x7b' :: intRepr n.weight ++ ':' :: "NUMERICAL:=".toList ++
    ratRepr n.answer ++ ':' :: ratRepr n.tolerance ++ ['\x7d']
  if n.show_tolerance = true ∧ 0 < n.tolerance then
    s ++ (" (\\(\\pm ".toList ++ ratRepr n.tolerance ++ "\\))".toList)
  else s

/-- The `Multiresponse` dataclass. -/
structure Multiresponse where
  correct_answers : List PyVal
  incorrect_answers : List PyVal
  horizontal : Bool := true
  shuffle : Bool := true
  weight : Int := 1
deriving DecidableEq

/-- The validation message of `Multiresponse.__str__`. -/
def mrErrMsg : Str :=
  "At least one valid correct answer is required by Moodle. None provided.".toList

/-- The `MULTIRESPONSE` header suffix from the source's f-string. -/
def mrSuffix (mr : Multiresponse) : Str :=
  (if mr.horizontal || mr.shuffle then ['_'] else []) ++
  (if mr.horizontal then ['H'] else []) ++
  (if mr.shuffle then ['S'] else [])

/-- The `(text, correct)` pair list built by `Multiresponse.__str__`:
correct answers first, then incorrect answers, each in source order. -/
def optionPairs (correct incorrect : List PyVal) : List (Str × Bool) :=
  correct.map (fun v => (pyStrVal v, true)) ++
  incorrect.map (fun v => (pyStrVal v, false))

/-- Translation of `Multiresponse.__str__`.  The source first reassigns both
answer lists to their string-coerced copies, then validates, then renders; the
updated record is returned alongside the result. -/
def mrRender (mr : Multiresponse) : Except Str Str × Multiresponse :=
  let mr2 := { mr with
    correct_answers := coerceList mr.correct_answers,
    incorrect_answers := coerceList mr.incorrect_answers }
  if mr2.correct_answers = [] then (Except.error mrErrMsg, mr2)
  else
    let pairs := optionPairs mr2.correct_answers mr2.incorrect_answers
    let pairs := if mr2.shuffle then pairs else pySorted pairs
    (Except.ok ('\x7b' :: intRepr mr2.weight ++ ':' :: "MULTIRESPONSE".toList ++
      mrSuffix mr2 ++ ':' :: joinOptions pairs ++ ['\x7d']), mr2)

/-- The `Multichoice.DisplayMode` enum. -/
inductive DisplayMode where
  | DROPDOWN
  | HORIZONTAL_BUTTONS
  | VERTICAL_BUTTONS
deriving DecidableEq, Repr

/-- The `Multichoice` dataclass. -/
structure Multichoice where
  correct_answer : PyVal
  incorrect_answers : List PyVal
  display_mode : DisplayMode := .DROPDOWN
  shuffle : Bool := false
  weight : Int := 1
deriving DecidableEq

/-- The validation message of `Multichoice.__str__`. -/
def mcErrMsg : Str := "At least one incorrect answer is needed".toList

/-- The display suffix built by `Multichoice.__str__`: letters accumulated in
order H, V, S, then prefixed with `_` when non-empty. -/
def mcDisplay (mc : Multichoice) : Str :=
  let d := (if mc.display_mode = .HORIZONTAL_BUTTONS then ['H'] else []) ++
    (if mc.display_mode = .VERTICAL_BUTTONS then ['V'] else []) ++
    (if mc.shuffle then ['S'] else [])
  if d = [] then d else '_' :: d

/-- Translation of `Multichoice.__str__`.  `perm` stands for the in-place
`random.shuffle`; it is only consulted when `shuffle` is true. -/
def mcRender (perm : List (Str × Bool) → List (Str × Bool)) (mc : Multichoice) :
    Except Str Str :=
  if mc.incorrect_answers = [] then Except.error mcErrMsg
  else
    let pairs : List (Str × Bool) :=
      (pyStrVal mc.correct_answer, true) ::
        (coerceList mc.incorrect_answers).map (fun v => (pyStrVal v, false))
    let pairs := if mc.shuffle then perm pairs else pySorted pairs
    Except.ok ('\x7b' :: intRepr mc.weight ++ ':' :: "MULTICHOICE".toList ++
      mcDisplay mc ++ ':' :: joinOptions pairs ++ ['\x7d'])

/-- The `ShortAnswer` dataclass. -/
structure ShortAnswer where
  answer : Str
  weight : Int := 1
deriving DecidableEq

/-- Translation of `ShortAnswer.__str__`. -/
def saRender (sa : ShortAnswer) : Str :=
  '\x7b' :: intRepr sa.weight ++ ':' :: "SHORTANSWER:=".toList ++ sa.answer ++ ['\x7d']

/-- Digit-sequence value reader used to check the token grammar. -/
def parseNat (l : Str) : Option Nat :=
  if l ≠ [] ∧ ∀ c ∈ l, c.isDigit = true then
    some (l.foldl (fun a c => 10 * a + (c.toNat - 48)) 0)
  else none

/-- Signed decimal reader used to check the token grammar. -/
def parseInt (l : Str) : Option Int :=
  match l with
  | [] => none
  | c :: rest =>
    if c = '-' then
      match parseNat rest with
      | some n => some (-(n : Int))
      | none => none
    else
      match parseNat (c :: rest) with
      | some n => some ((n : Int))
      | none => none

/-- Uppercase-letter test for the KIND portion of a token. -/
def isUpperCh (c : Char) : Bool := decide ('A' ≤ c) && decide (c ≤ 'Z')

/-- Structural parser for the fixed token grammar
`\x7bweight:KIND<suffix>:body\x7d`: reads the weight up to the first `:`,
then the run of uppercase letters that follows it. -/
def parseKindWeight (s : Str) : Option (Int × Str) :=
  match s with
  | [] => none
  | c :: rest =>
    if c = '\x7b' then
      match parseInt (rest.takeWhile (· != ':')) with
      | none => none
      | some w =>
        match rest.dropWhile (· != ':') with
        | [] => none
        | c2 :: rest2 => if c2 = ':' then some (w, rest2.takeWhile isUpperCh) else none
    else none

/-- Matching the fixed token grammar `\x7bweight:KIND<suffix>:body\x7d`,
possibly followed by trailing annotation text after the closing brace. -/
def tokenGrammar (w : Int) (kind : Str) (s : Str) : Prop :=
  ∃ sfx body tail, s = '\x7b' :: intRepr w ++ ':' :: (kind ++ sfx ++ ':' :: body ++ '\x7d' :: tail)

/-! Question and Quiz serialization.  `Question.__str__` formats an f-string,
applies `textwrap.dedent` and then `str.strip`; all three are modelled
faithfully below on `List Char`. -/

/-- Characters treated as indentation by `textwrap.dedent` (its regexes use
the class `[ \t]`). -/
def isIndentWs (c : Char) : Bool := c = ' ' || c = '\t'

/-- Characters stripped by Python's `str.strip()`. -/
def isPyWs (c : Char) : Bool :=
  c = ' ' || c = '\t' || c = '\n' || c = '\r' || c = '\x0b' || c = '\x0c'

/-- Python's `text.split('\n')` (which `dedent`'s per-line regexes act on). -/
def pySplit : Str → List Str
  | [] => [[]]
  | c :: rest =>
    if c = '\n' then [] :: pySplit rest
    else
      match pySplit rest with
      | [] => [[c]]
      | l :: ls => (c :: l) :: ls

/-- Python's `'\n'.join`, the inverse direction of `pySplit`. -/
def joinNl : List Str → Str
  | [] => []
  | [l] => l
  | l :: ls => l ++ '\n' :: joinNl ls

/-- The normalization `_whitespace_only_re.sub('', text)` of `textwrap.dedent`:
a line consisting only of blanks and tabs is replaced by an empty line. -/
def wsNorm (l : Str) : Str :=
  if l ≠ [] ∧ l.all isIndentWs then [] else l

/-- The leading indentation of a line, as captured by `dedent`'s
`_leading_whitespace_re`. -/
def lineIndent (l : Str) : Str := l.takeWhile isIndentWs

/-- The longest common prefix of two indentation strings. -/
def commonPfx : Str → Str → Str
  | a :: as, b :: bs => if a = b then a :: commonPfx as bs else []
  | _, _ => []

/-- One step of `dedent`'s margin loop: keep the margin if it is a prefix of
the next indent, shrink to the indent if the indent is a prefix of the margin,
and otherwise cut the margin at the first mismatching position. -/
def marginStep (m i : Str) : Str :=
  if m.isPrefixOf i then m
  else if i.isPrefixOf m then i
  else commonPfx m i

/-- The margin computed by `textwrap.dedent` over the normalized lines:
the fold of `marginStep` over the indents of the lines that contain a
non-whitespace character (an empty result plays the role of Python's
`margin = None` or empty margin: nothing is removed). -/
def computeMargin (lines : List Str) : Str :=
  match (lines.filter (fun l => l.any (fun c => !(isIndentWs c)))).map lineIndent with
  | [] => []
  | i :: rest => rest.foldl marginStep i

/-- The substitution `re.sub(r'(?m)^' + margin, '', text)` of `dedent`, per
line: a line starting with the (non-empty) margin loses it. -/
def removeMargin (m : Str) (l : Str) : Str :=
  if m ≠ [] ∧ m.isPrefixOf l then l.drop m.length else l

/-- The per-line effect of `dedent` after whitespace-only normalization:
remove the computed margin from every line. -/
def dedentLines (lines : List Str) : List Str :=
  lines.map (removeMargin (computeMargin lines))

/-- `textwrap.dedent`. -/
def dedentChars (s : Str) : Str :=
  joinNl (dedentLines ((pySplit s).map wsNorm))

/-- Python's `str.strip()`. -/
def pyStrip (s : Str) : Str :=
  ((s.dropWhile isPyWs).reverse.dropWhile isPyWs).reverse

/-- The `Question` dataclass. -/
structure Question where
  name : Str
  contents : Str
deriving DecidableEq

/-- The f-string text of `Question.__str__` before `dedent`/`strip`, up to the
name interpolation point. -/
def questionRawA : Str := "\n    <question type=\"cloze\">\n        <name><text>".toList

/-- The f-string text between the name and contents interpolation points. -/
def questionRawB : Str :=
  "</text></name>\n        <questiontext>\n        <text><![CDATA[".toList

/-- The f-string text after the contents interpolation point. -/
def questionRawC : Str :=
  ("]]></text>\n        </questiontext>\n        <generalfeedback>\n" ++
   "        <text></text>\n        </generalfeedback>\n" ++
   "        <shuffleanswers>1</shuffleanswers>\n    </question>").toList

/-- The interpolated f-string of `Question.__str__`. -/
def questionRaw (q : Question) : Str :=
  questionRawA ++ (q.name ++ (questionRawB ++ (q.contents ++ questionRawC)))

/-- Translation of `Question.__str__`: interpolate, dedent, strip. -/
def questionChars (q : Question) : Str := pyStrip (dedentChars (questionRaw q))

/-- The `Quiz` dataclass. -/
structure Quiz where
  questions : List Question
deriving DecidableEq

/-- The fixed prefix of `Quiz.__str__`, ending in its newline. -/
def quizHeader : Str := "<?xml version=\"1.0\" encoding=\"UTF-8\"?><quiz>\n".toList

/-- The fixed tail of `Quiz.__str__`. -/
def quizFooter : Str := "\n\n</quiz>".toList

/-- Python's `"\n\n".join`. -/
def joinSep : List Str → Str
  | [] => []
  | [f] => f
  | f :: fs => f ++ '\n' :: '\n' :: joinSep fs

/-- Translation of `Quiz.__str__`. -/
def quizChars (qz : Quiz) : Str :=
  quizHeader ++ joinSep (qz.questions.map questionChars) ++ quizFooter

/-- The validation message of `Quiz.to_xml_file`. -/
def quizErrMsg : Str := "At least one question is needed.".toList

/-- Translation of `Quiz.to_xml_file`.  The file system is modelled as an
association list of path/contents pairs; the validation check precedes the
write, so on the error path the file system is returned untouched. -/
def toXmlFile (fs : List (Str × Str)) (path : Str) (qz : Quiz) :
    Except Str (List (Str × Str)) :=
  if qz.questions = [] then Except.error quizErrMsg
  else Except.ok ((path, quizChars qz ++ ['\n']) :: fs)

/-- Translation of `Question.to_xml_file`: wrap in a one-element quiz. -/
def questionToXmlFile (fs : List (Str × Str)) (path : Str) (q : Question) :
    Except Str (List (Str × Str)) :=
  toXmlFile fs path (Quiz.mk [q])

/-- The question marker whose occurrences the spec counts. -/
def marker : Str := "<question type=\"cloze\">".toList

/-- Number of positions at which `pat` occurs in a text. -/
def countOcc (pat : Str) : Str → Nat
  | [] => 0
  | c :: rest => (if pat.isPrefixOf (c :: rest) then 1 else 0) + countOcc pat rest

/-- The second raw line of the question f-string. -/
def qLine1 : Str := "    <question type=\"cloze\">".toList

/-- Fixed text preceding the name on its raw line. -/
def qNamePre : Str := "        <name><text>".toList

/-- Fixed text following the name on its raw line. -/
def qNameSuf : Str := "</text></name>".toList

/-- The raw `<questiontext>` line. -/
def qLine3 : Str := "        <questiontext>".toList

/-- Fixed text preceding the contents on its raw line. -/
def qCDataPre : Str := "        <text><![CDATA[".toList

/-- Fixed text following the contents on its raw line. -/
def qCDataSuf : Str := "]]></text>".toList

/-- The raw `</questiontext>` line. -/
def qLine5 : Str := "        </questiontext>".toList

/-- The raw `<generalfeedback>` line. -/
def qLine6 : Str := "        <generalfeedback>".toList

/-- The raw empty feedback text line. -/
def qLine7 : Str := "        <text></text>".toList

/-- The raw `</generalfeedback>` line. -/
def qLine8 : Str := "        </generalfeedback>".toList

/-- The raw `<shuffleanswers>` line. -/
def qLine9 : Str := "        <shuffleanswers>1</shuffleanswers>".toList

/-- The raw closing `</question>` line. -/
def qLine10 : Str := "    </question>".toList

/-- The fragment demanded by the specification: the question element holding
the name and the contents verbatim.  Modelled from the spec: `<question
type="cloze">` wrapping `<name>`, a `<questiontext>` holding the contents
verbatim inside a CDATA block, an empty `<generalfeedback>`, and the fixed
`<shuffleanswers>1</shuffleanswers>` marker. -/
def questionSpecChars (q : Question) : Str :=
  "<question type=\"cloze\">\n    <name><text>".toList ++ q.name ++
  "</text></name>\n    <questiontext>\n    <text><![CDATA[".toList ++ q.contents ++
  ("]]></text>\n    </questiontext>\n    <generalfeedback>\n    <text></text>\n" ++
   "    </generalfeedback>\n    <shuffleanswers>1</shuffleanswers>\n</question>").toList

/-! Order lemmas for the comparison used by `sorted`. -/

theorem lexLt_nil_cons (y : Char) (ys : Str) : lexLt [] (y :: ys) = true := rfl

theorem lexLt_nil_right (a : Str) : lexLt a [] = false := by
  cases a <;> rfl

theorem lexLt_cons_iff (x y : Char) (xs ys : Str) :
    lexLt (x :: xs) (y :: ys) = true ↔ x < y ∨ (x = y ∧ lexLt xs ys = true) := by
  simp only [lexLt]
  split_ifs with h1 h2
  · simp [h1]
  · have hne : x ≠ y := fun he => absurd h2 (by simp [he])
    simp [h1, hne]
  · have hxy : x = y := le_antisymm (le_of_not_lt h2) (le_of_not_lt h1)
    simp [hxy, lt_irrefl]

theorem lexLt_trans : ∀ (a b c : Str), lexLt a b = true → lexLt b c = true →
    lexLt a c = true := by
  intro a
  induction a with
  | nil =>
    intro b c hab hbc
    cases b with
    | nil => simp [lexLt] at hab
    | cons y ys =>
      cases c with
      | nil => simp [lexLt_nil_right] at hbc
      | cons z zs => exact lexLt_nil_cons z zs
  | cons x xs ih =>
    intro b c hab hbc
    cases b with
    | nil => simp [lexLt_nil_right] at hab
    | cons y ys =>
      cases c with
      | nil => simp [lexLt_nil_right] at hbc
      | cons z zs =>
        rw [lexLt_cons_iff] at hab hbc ⊢
        rcases hab with h1 | ⟨he1, h1⟩
        · rcases hbc with h2 | ⟨he2, _⟩
          · exact Or.inl (lt_trans h1 h2)
          · exact Or.inl (he2 ▸ h1)
        · rcases hbc with h2 | ⟨he2, h2⟩
          · exact Or.inl (he1 ▸ h2)
          · exact Or.inr ⟨he1.trans he2, ih ys zs h1 h2⟩

theorem lexLt_total : ∀ (a b : Str), lexLt a b = true ∨ a = b ∨ lexLt b a = true := by
  intro a
  induction a with
  | nil =>
    intro b
    cases b with
    | nil => exact Or.inr (Or.inl rfl)
    | cons y ys => exact Or.inl (lexLt_nil_cons y ys)
  | cons x xs ih =>
    intro b
    cases b with
    | nil => exact Or.inr (Or.inr (lexLt_nil_cons x xs))
    | cons y ys =>
      rcases lt_trichotomy x y with h | h | h
      · exact Or.inl ((lexLt_cons_iff ..).2 (Or.inl h))
      · rcases ih ys with h2 | h2 | h2
        · exact Or.inl ((lexLt_cons_iff ..).2 (Or.inr ⟨h, h2⟩))
        · exact Or.inr (Or.inl (by rw [h, h2]))
        · exact Or.inr (Or.inr ((lexLt_cons_iff ..).2 (Or.inr ⟨h.symm, h2⟩)))
      · exact Or.inr (Or.inr ((lexLt_cons_iff ..).2 (Or.inl h)))

theorem lexLt_irrefl : ∀ (a : Str), lexLt a a = false := by
  intro a
  induction a with
  | nil => rfl
  | cons x xs ih =>
    by_contra h
    rcases (lexLt_cons_iff x x xs xs).1 (by simpa using h) with h1 | ⟨_, h1⟩
    · exact lt_irrefl x h1
    · rw [ih] at h1; exact Bool.false_ne_true h1

theorem pairLe_iff (x y : Str × Bool) :
    pairLe x y ↔ lexLt x.1 y.1 = true ∨ (x.1 = y.1 ∧ (!x.2 || y.2) = true) := by
  unfold pairLe pairLeB
  simp [Bool.or_eq_true, Bool.and_eq_true, beq_iff_eq]

instance : IsTrans (Str × Bool) pairLe where
  trans := by
    intro a b c hab hbc
    rw [pairLe_iff] at hab hbc ⊢
    rcases hab with h1 | ⟨he1, h1⟩
    · rcases hbc with h2 | ⟨he2, _⟩
      · exact Or.inl (lexLt_trans _ _ _ h1 h2)
      · exact Or.inl (he2 ▸ h1)
    · rcases hbc with h2 | ⟨he2, h2⟩
      · exact Or.inl (he1 ▸ h2)
      · refine Or.inr ⟨he1.trans he2, ?_⟩
        cases ha : a.2 <;> cases hb : b.2 <;> cases hc : c.2 <;> simp_all

instance : IsTotal (Str × Bool) pairLe where
  total := by
    intro a b
    rw [pairLe_iff, pairLe_iff]
    rcases lexLt_total a.1 b.1 with h | h | h
    · exact Or.inl (Or.inl h)
    · cases ha : a.2 <;> cases hb : b.2 <;> simp [h]
    · exact Or.inr (Or.inl h)

/-! Properties of the coercion pass. -/

theorem pyStrVal_coerce (v : PyVal) : pyStrVal (PyVal.str (pyStrVal v)) = pyStrVal v := rfl

theorem coerceList_eq_nil_iff (l : List PyVal) : coerceList l = [] ↔ l = [] := by
  simp [coerceList]

theorem optionPairs_coerce (a b : List PyVal) :
    optionPairs (coerceList a) (coerceList b) = optionPairs a b := by
  unfold optionPairs coerceList
  rw [List.map_map, List.map_map]
  rfl

/-- Normal form of a failing Multiresponse render. -/
theorem mrRender_error (mr : Multiresponse) (h : mr.correct_answers = []) :
    (mrRender mr).1 = Except.error mrErrMsg := by
  have hc : coerceList mr.correct_answers = [] := by
    rw [coerceList_eq_nil_iff]; exact h
  unfold mrRender
  simp [hc]

/-- Normal form of a successful Multiresponse render. -/
theorem mrRender_ok (mr : Multiresponse) (h : mr.correct_answers ≠ []) :
    (mrRender mr).1 = Except.ok ('\x7b' :: intRepr mr.weight ++ ':' ::
      "MULTIRESPONSE".toList ++ mrSuffix mr ++ ':' ::
      joinOptions (if mr.shuffle = true then optionPairs mr.correct_answers mr.incorrect_answers
        else pySorted (optionPairs mr.correct_answers mr.incorrect_answers)) ++ ['\x7d']) := by
  have hc : coerceList mr.correct_answers ≠ [] := by
    simpa [coerceList_eq_nil_iff] using h
  unfold mrRender
  simp only [if_neg hc]
  simp [optionPairs_coerce, mrSuffix]

/-- Normal form of a successful Multichoice render. -/
theorem mcRender_ok (perm : List (Str × Bool) → List (Str × Bool)) (mc : Multichoice)
    (h : mc.incorrect_answers ≠ []) :
    mcRender perm mc = Except.ok ('\x7b' :: intRepr mc.weight ++ ':' ::
      "MULTICHOICE".toList ++ mcDisplay mc ++ ':' ::
      joinOptions (if mc.shuffle = true then
          perm ((pyStrVal mc.correct_answer, true) ::
            mc.incorrect_answers.map (fun v => (pyStrVal v, false)))
        else pySorted ((pyStrVal mc.correct_answer, true) ::
            mc.incorrect_answers.map (fun v => (pyStrVal v, false)))) ++ ['\x7d']) := by
  unfold mcRender
  simp only [if_neg h]
  have hm : (coerceList mc.incorrect_answers).map (fun v => (pyStrVal v, false)) =
      mc.incorrect_answers.map (fun v => (pyStrVal v, false)) := by
    unfold coerceList
    rw [List.map_map]
    rfl
  simp [hm]

/-! Decimal representation and token-grammar parsing lemmas. -/

theorem natReprAux_zero (fuel : Nat) : natReprAux fuel 0 = [] := by
  cases fuel <;> simp [natReprAux]

theorem digitChar_facts : ∀ d, d < 10 → (Nat.digitChar d).isDigit = true ∧
    (Nat.digitChar d).toNat - 48 = d := by decide

theorem natReprAux_spec : ∀ (fuel n : Nat), n ≤ fuel → n ≠ 0 →
    natReprAux fuel n ≠ [] ∧ (∀ c ∈ natReprAux fuel n, c.isDigit = true) ∧
    (natReprAux fuel n).foldl (fun a c => 10 * a + (c.toNat - 48)) 0 = n := by
  intro fuel
  induction fuel with
  | zero => intro n h hn; omega
  | succ fuel ih =>
    intro n h hn
    rw [natReprAux, if_neg hn]
    have hd := digitChar_facts (n % 10) (Nat.mod_lt _ (by norm_num))
    by_cases h10 : n < 10
    · have hq : n / 10 = 0 := Nat.div_eq_of_lt h10
      have hm : n % 10 = n := Nat.mod_eq_of_lt h10
      rw [hq, natReprAux_zero, List.nil_append]
      refine ⟨by simp, ?_, ?_⟩
      · intro c hc
        rw [List.mem_singleton] at hc
        rw [hc]; exact hd.1
      · simp only [List.foldl]
        rw [hd.2, hm]
        omega
    · have hdiv : n / 10 ≠ 0 := by
        have := Nat.div_pos (le_of_not_lt h10) (by norm_num : 0 < 10)
        omega
      have hle : n / 10 ≤ fuel := by
        have := Nat.div_lt_self (Nat.pos_of_ne_zero hn) (by norm_num : 1 < 10)
        omega
      obtain ⟨h1, h2, h3⟩ := ih (n / 10) hle hdiv
      refine ⟨by simp, ?_, ?_⟩
      · intro c hc
        rcases List.mem_append.1 hc with hc | hc
        · exact h2 c hc
        · rw [List.mem_singleton] at hc
          rw [hc]; exact hd.1
      · rw [List.foldl_append, h3]
        simp only [List.foldl]
        rw [hd.2]
        omega

theorem natRepr_spec (n : Nat) :
    parseNat (natRepr n) = some n ∧ ∀ c ∈ natRepr n, c.isDigit = true := by
  by_cases h : n = 0
  · subst h
    exact ⟨by decide, by decide⟩
  · obtain ⟨h1, h2, h3⟩ := natReprAux_spec n n le_rfl h
    unfold natRepr
    rw [if_neg h]
    refine ⟨?_, h2⟩
    unfold parseNat
    rw [if_pos ⟨h1, h2⟩, h3]

theorem isDigit_ne_colon {c : Char} (h : c.isDigit = true) : c ≠ ':' := by
  intro he
  rw [he] at h
  exact absurd h (by decide)

theorem isDigit_ne_dash {c : Char} (h : c.isDigit = true) : c ≠ '-' := by
  intro he
  rw [he] at h
  exact absurd h (by decide)

theorem intRepr_parse (w : Int) : parseInt (intRepr w) = some w := by
  by_cases hw : w < 0
  · unfold intRepr
    rw [if_pos hw]
    have h1 : (((-w).toNat : Nat) : Int) = -w := Int.toNat_of_nonneg (by omega)
    simp [parseInt, (natRepr_spec (-w).toNat).1, h1]
  · unfold intRepr
    rw [if_neg hw]
    obtain ⟨hp, hdig⟩ := natRepr_spec w.toNat
    rcases hn : natRepr w.toNat with _ | ⟨c, rest⟩
    · rw [hn] at hp
      exact absurd hp (by simp [parseNat])
    · rw [hn] at hp hdig
      simp only [parseInt, if_neg (isDigit_ne_dash (hdig c (by simp))), hp]
      congr 1
      rw [Int.toNat_of_nonneg (by omega)]

theorem intRepr_ne_colon (w : Int) : ∀ c ∈ intRepr w, (c != ':') = true := by
  intro c hc
  rw [bne_iff_ne]
  by_cases hw : w < 0
  · unfold intRepr at hc
    rw [if_pos hw] at hc
    rcases List.mem_cons.1 hc with hc | hc
    · rw [hc]; decide
    · exact isDigit_ne_colon ((natRepr_spec _).2 c hc)
  · unfold intRepr at hc
    rw [if_neg hw] at hc
    exact isDigit_ne_colon ((natRepr_spec _).2 c hc)

theorem takeWhile_all_append (p : Char → Bool) (a b : Str) (ha : ∀ c ∈ a, p c = true) :
    (a ++ b).takeWhile p = a ++ b.takeWhile p ∧ (a ++ b).dropWhile p = b.dropWhile p := by
  induction a with
  | nil => simp
  | cons c a' ih =>
    have hc := ha c (by simp)
    have ih' := ih (fun x hx => ha x (by simp [hx]))
    simp [List.takeWhile_cons, List.dropWhile_cons, hc, ih'.1, ih'.2]

theorem parseKindWeight_token (w : Int) (kind sfx body tail : Str)
    (hkind : ∀ c ∈ kind, isUpperCh c = true)
    (hsfx : sfx = [] ∨ ∃ t, sfx = '_' :: t) :
    parseKindWeight ('\x7b' :: (intRepr w ++ (':' ::
      (kind ++ (sfx ++ (':' :: (body ++ ('\x7d' :: tail)))))))) = some (w, kind) := by
  have htw := takeWhile_all_append (· != ':') (intRepr w)
    (':' :: (kind ++ (sfx ++ (':' :: (body ++ ('\x7d' :: tail)))))) (intRepr_ne_colon w)
  have hcolon : ((':' :: (kind ++ (sfx ++ (':' :: (body ++ ('\x7d' :: tail)))))).takeWhile
      (· != ':')) = [] := by
    simp [List.takeWhile_cons]
  have hcolon' : ((':' :: (kind ++ (sfx ++ (':' :: (body ++ ('\x7d' :: tail)))))).dropWhile
      (· != ':')) = ':' :: (kind ++ (sfx ++ (':' :: (body ++ ('\x7d' :: tail))))) := by
    simp [List.dropWhile_cons]
  have hkindtw : (kind ++ (sfx ++ (':' :: (body ++ ('\x7d' :: tail))))).takeWhile isUpperCh =
      kind := by
    rw [(takeWhile_all_append isUpperCh kind _ hkind).1]
    rcases hsfx with hs | ⟨t, hs⟩ <;> subst hs
    · simp [List.takeWhile_cons, isUpperCh]
    · simp [List.takeWhile_cons, isUpperCh]
  simp only [parseKindWeight, if_pos rfl, htw.1, hcolon, htw.2, hcolon', List.append_nil,
    intRepr_parse, hkindtw]
  simp

theorem numericalChars_form (n : Numerical) :
    numericalChars n = '\x7b' :: (intRepr n.weight ++ (':' :: ("NUMERICAL".toList ++ ([] ++
      (':' :: (('=' :: (ratRepr n.answer ++ (':' :: ratRepr n.tolerance))) ++
        ('\x7d' :: (if n.show_tolerance = true ∧ 0 < n.tolerance then
          " (\\(\\pm ".toList ++ ratRepr n.tolerance ++ "\\))".toList else [])))))))) := by
  have hsplit : "NUMERICAL:=".toList = "NUMERICAL".toList ++ [':', '='] := by decide
  unfold numericalChars
  split_ifs with h <;> simp [hsplit, List.append_assoc]

theorem saRender_form (sa : ShortAnswer) :
    saRender sa = '\x7b' :: (intRepr sa.weight ++ (':' :: ("SHORTANSWER".toList ++ ([] ++
      (':' :: (('=' :: sa.answer) ++ ('\x7d' :: []))))))) := by
  have hsplit : "SHORTANSWER:=".toList = "SHORTANSWER".toList ++ [':', '='] := by decide
  unfold saRender
  simp [hsplit, List.append_assoc]

theorem mrSuffix_shape (mr : Multiresponse) :
    mrSuffix mr = [] ∨ ∃ t, mrSuffix mr = '_' :: t := by
  unfold mrSuffix
  cases mr.horizontal <;> cases mr.shuffle <;> simp

theorem mcDisplay_shape (mc : Multichoice) :
    mcDisplay mc = [] ∨ ∃ t, mcDisplay mc = '_' :: t := by
  cases hd : mc.display_mode <;> cases hsh : mc.shuffle <;> simp [mcDisplay, hd, hsh]

/-! Line splitting, dedent and strip lemmas. -/

theorem isPrefixOf_eq (a b : Str) : a.isPrefixOf b = true ↔ a <+: b :=
  List.isPrefixOf_iff_prefix

theorem pySplit_cons_nl (t : Str) : pySplit ('\n' :: t) = [] :: pySplit t := by
  simp [pySplit]

theorem pySplit_ne_nil (s : Str) : pySplit s ≠ [] := by
  cases s with
  | nil => simp [pySplit]
  | cons c rest =>
    by_cases h : c = '\n'
    · simp [pySplit, h]
    · simp only [pySplit, if_neg h]
      cases pySplit rest <;> simp

theorem pySplit_no_nl (x : Str) (hx : '\n' ∉ x) : pySplit x = [x] := by
  induction x with
  | nil => rfl
  | cons c x' ih =>
    have hc : c ≠ '\n' := fun h => hx (by simp [h])
    have ih' := ih (fun h => hx (by simp [h]))
    simp [pySplit, hc, ih']

theorem pySplit_append_nl (x t : Str) (hx : '\n' ∉ x) :
    pySplit (x ++ '\n' :: t) = x :: pySplit t := by
  induction x with
  | nil => simpa using pySplit_cons_nl t
  | cons c x' ih =>
    have hc : c ≠ '\n' := fun h => hx (by simp [h])
    have ih' := ih (fun h => hx (by simp [h]))
    simp [pySplit, hc, ih']

theorem wsNorm_nil : wsNorm [] = [] := by simp [wsNorm]

theorem wsNorm_of_has_nonws (l : Str) (c : Char) (hc : c ∈ l)
    (h : isIndentWs c = false) : wsNorm l = l := by
  unfold wsNorm
  rw [if_neg]
  rintro ⟨-, hall⟩
  rw [List.all_eq_true] at hall
  rw [hall c hc] at h
  simp at h

theorem takeWhile_append_stop (p : Char → Bool) (a b : Str)
    (h : ∃ c ∈ a, p c = false) : (a ++ b).takeWhile p = a.takeWhile p := by
  induction a with
  | nil =>
    obtain ⟨c, hc, -⟩ := h
    exact absurd hc (List.not_mem_nil c)
  | cons c a' ih =>
    obtain ⟨c0, hc0, hp0⟩ := h
    rcases List.mem_cons.1 hc0 with rfl | hc0'
    · simp [List.takeWhile_cons, hp0]
    · by_cases hpc : p c = true
      · simp [List.takeWhile_cons, hpc, ih ⟨c0, hc0', hp0⟩]
      · simp [List.takeWhile_cons, Bool.of_not_eq_true hpc]

theorem dropWhile_append_stop (p : Char → Bool) (a b : Str)
    (h : ∃ c ∈ a, p c = false) : (a ++ b).dropWhile p = a.dropWhile p ++ b := by
  induction a with
  | nil =>
    obtain ⟨c, hc, -⟩ := h
    exact absurd hc (List.not_mem_nil c)
  | cons c a' ih =>
    obtain ⟨c0, hc0, hp0⟩ := h
    rcases List.mem_cons.1 hc0 with rfl | hc0'
    · simp [List.dropWhile_cons, hp0]
    · by_cases hpc : p c = true
      · simp [List.dropWhile_cons, hpc, ih ⟨c0, hc0', hp0⟩]
      · simp [List.dropWhile_cons, Bool.of_not_eq_true hpc]

theorem removeMargin_pfx (m l : Str) (h : m <+: l) :
    removeMargin m l = l.drop m.length := by
  unfold removeMargin
  by_cases hm : m = []
  · subst hm
    simp
  · rw [if_pos ⟨hm, (isPrefixOf_eq m l).2 h⟩]

theorem removeMargin_concrete (m f x : Str) (h2 : m <+: f) :
    removeMargin m (f ++ x) = f.drop m.length ++ x := by
  rw [removeMargin_pfx m _ (h2.trans (List.prefix_append f x)),
    List.drop_append_of_le_length h2.length_le]

theorem dropWhile_ws_nl (t : Str) :
    List.dropWhile isPyWs ('\n' :: t) = List.dropWhile isPyWs t := by
  rw [List.dropWhile_cons, if_pos (by decide)]

theorem dropWhile_ws_stop (c : Char) (t : Str) (hc : isPyWs c = false) :
    List.dropWhile isPyWs (c :: t) = c :: t := by
  simp [List.dropWhile_cons, hc]

theorem stripRight_of_last (s : Str) (c : Char) (hc : isPyWs c = false) :
    ((s ++ [c]).reverse.dropWhile isPyWs).reverse = s ++ [c] := by
  rw [List.reverse_append]
  have h1 : ([c].reverse ++ s.reverse) = c :: s.reverse := by simp
  rw [h1, dropWhile_ws_stop c _ hc]
  simp

/-! Claim theorems about the field renderers. -/

/-- Claim C1: for every Multiresponse field with at least one correct answer,
the rendered token header is `MULTIRESPONSE` followed by a connector `_`
exactly when horizontal or shuffle is true, then `H` when horizontal, then `S`
when shuffle. -/
theorem claim_C1 (mr : Multiresponse) (h : mr.correct_answers ≠ []) :
    ∃ body, (mrRender mr).1 = Except.ok ('\x7b' :: intRepr mr.weight ++ ':' ::
      ("MULTIRESPONSE".toList ++
        (((if mr.horizontal = true ∨ mr.shuffle = true then ['_'] else []) ++
          ((if mr.horizontal = true then ['H'] else []) ++
           (if mr.shuffle = true then ['S'] else []))) ++
         ':' :: (body ++ ['\x7d'])))) := by
  rw [mrRender_ok mr h]
  refine ⟨joinOptions (if mr.shuffle = true then
      optionPairs mr.correct_answers mr.incorrect_answers
    else pySorted (optionPairs mr.correct_answers mr.incorrect_answers)), ?_⟩
  cases hh : mr.horizontal <;> cases hs : mr.shuffle <;>
    simp [mrSuffix, hh, hs, List.append_assoc]

/-- Claim C1 witness at a concrete field. -/
theorem claim_C1_witness :
    (Multiresponse.mk [PyVal.str ['a']] [] true false 1).correct_answers ≠ [] ∧
    ∃ body, (mrRender (Multiresponse.mk [PyVal.str ['a']] [] true false 1)).1 =
      Except.ok ('\x7b' :: intRepr 1 ++ ':' :: ("MULTIRESPONSE".toList ++
        (((if (true : Bool) = true ∨ (false : Bool) = true then ['_'] else []) ++
          ((if (true : Bool) = true then ['H'] else []) ++
           (if (false : Bool) = true then ['S'] else []))) ++
         ':' :: (body ++ ['\x7d'])))) :=
  ⟨by decide, claim_C1 (Multiresponse.mk [PyVal.str ['a']] [] true false 1) (by decide)⟩

/-- Claim C4: a Numerical field renders as the base token
`{weight:NUMERICAL:=answer:tolerance}` with the inline-math tolerance
annotation appended exactly when `show_tolerance` is true and the tolerance is
positive. -/
theorem claim_C4 (n : Numerical) :
    numericalChars n = ('\x7b' :: intRepr n.weight ++ ':' :: "NUMERICAL:=".toList ++
      ratRepr n.answer ++ ':' :: ratRepr n.tolerance ++ ['\x7d']) ++
    (if n.show_tolerance = true ∧ 0 < n.tolerance then
      " (\\(\\pm ".toList ++ ratRepr n.tolerance ++ "\\))".toList else []) := by
  unfold numericalChars
  split_ifs with h <;> simp

/-- Claim C5: Multiresponse rendering fails exactly when the correct-answer
list is empty, Multichoice rendering fails exactly when the incorrect-answer
list is empty, and otherwise each returns a token. -/
theorem claim_C5 :
    (∀ mr : Multiresponse,
      ((∃ e, (mrRender mr).1 = Except.error e) ↔ mr.correct_answers = []) ∧
      ((∃ s, (mrRender mr).1 = Except.ok s) ↔ mr.correct_answers ≠ [])) ∧
    (∀ (perm : List (Str × Bool) → List (Str × Bool)) (mc : Multichoice),
      ((∃ e, mcRender perm mc = Except.error e) ↔ mc.incorrect_answers = []) ∧
      ((∃ s, mcRender perm mc = Except.ok s) ↔ mc.incorrect_answers ≠ [])) := by
  constructor
  · intro mr
    by_cases h : mr.correct_answers = []
    · rw [mrRender_error mr h]
      simp [h]
    · rw [mrRender_ok mr h]
      simp [h]
  · intro perm mc
    by_cases h : mc.incorrect_answers = []
    · unfold mcRender
      simp [h]
    · rw [mcRender_ok perm mc h]
      simp [h]

/-- Claim C9: with shuffle enabled a Multiresponse renders deterministically
with no permutation applied: the body lists the correct answers first, then
the incorrect answers, each in source order. -/
theorem claim_C9 (mr : Multiresponse) (hs : mr.shuffle = true)
    (h : mr.correct_answers ≠ []) :
    (mrRender mr).1 = Except.ok ('\x7b' :: intRepr mr.weight ++ ':' ::
      "MULTIRESPONSE".toList ++ mrSuffix mr ++ ':' ::
      joinOptions (mr.correct_answers.map (fun v => (pyStrVal v, true)) ++
        mr.incorrect_answers.map (fun v => (pyStrVal v, false))) ++ ['\x7d']) := by
  rw [mrRender_ok mr h]
  simp [hs, optionPairs]

/-- Claim C9 witness at a concrete field. -/
theorem claim_C9_witness :
    ((Multiresponse.mk [PyVal.str ['b'], PyVal.str ['a']] [PyVal.str ['c']] true true 1).shuffle
        = true ∧
      (Multiresponse.mk [PyVal.str ['b'], PyVal.str ['a']] [PyVal.str ['c']] true true
          1).correct_answers ≠ []) ∧
    (mrRender (Multiresponse.mk [PyVal.str ['b'], PyVal.str ['a']] [PyVal.str ['c']] true true
        1)).1 =
      Except.ok ('\x7b' :: intRepr 1 ++ ':' :: "MULTIRESPONSE".toList ++
        mrSuffix (Multiresponse.mk [PyVal.str ['b'], PyVal.str ['a']] [PyVal.str ['c']] true true
          1) ++ ':' ::
        joinOptions ([PyVal.str ['b'], PyVal.str ['a']].map (fun v => (pyStrVal v, true)) ++
          [PyVal.str ['c']].map (fun v => (pyStrVal v, false))) ++ ['\x7d']) :=
  ⟨⟨by decide, by decide⟩,
    claim_C9 (Multiresponse.mk [PyVal.str ['b'], PyVal.str ['a']] [PyVal.str ['c']] true true 1)
      (by decide) (by decide)⟩

/-- Claim C2 counterexample: on a Multiresponse with `shuffle = false`, one
correct option `a` and one incorrect option `a`, the code renders the body
`a~=a` (the incorrect copy first), not the `=a~a` demanded by the claim's rule
that equal-text options keep their correct-first order: Python's `sorted`
compares the whole `(text, correct)` tuple, so the correctness flag is a
tie-breaking sort key with `False` before `True`. -/
theorem claim_C2_counterexample :
    (mrRender (Multiresponse.mk [PyVal.str ['a']] [PyVal.str ['a']] false false 1)).1 =
      Except.ok "\x7b1:MULTIRESPONSE:a~=a\x7d".toList ∧
    "\x7b1:MULTIRESPONSE:a~=a\x7d".toList ≠ "\x7b1:MULTIRESPONSE:=a~a\x7d".toList :=
  ⟨by rfl, by decide⟩

/-- Claim C2 as amended: with `shuffle = false` (and the validation
precondition met) rendering is deterministic and the option list of the body
is the `pairLe`-sorted permutation of the option pairs, i.e. sorted
lexicographically by text with the correctness flag as a final tie-breaking
key (`false`, incorrect, before `true`, correct). -/
theorem claim_C2_amended :
    (∀ mr : Multiresponse, mr.shuffle = false → mr.correct_answers ≠ [] →
      ∃ opts, (mrRender mr).1 = Except.ok ('\x7b' :: intRepr mr.weight ++ ':' ::
          "MULTIRESPONSE".toList ++ mrSuffix mr ++ ':' :: joinOptions opts ++ ['\x7d']) ∧
        opts.Perm (optionPairs mr.correct_answers mr.incorrect_answers) ∧
        List.Sorted pairLe opts) ∧
    (∀ (perm : List (Str × Bool) → List (Str × Bool)) (mc : Multichoice),
      mc.shuffle = false → mc.incorrect_answers ≠ [] →
      ∃ opts, mcRender perm mc = Except.ok ('\x7b' :: intRepr mc.weight ++ ':' ::
          "MULTICHOICE".toList ++ mcDisplay mc ++ ':' :: joinOptions opts ++ ['\x7d']) ∧
        opts.Perm ((pyStrVal mc.correct_answer, true) ::
          mc.incorrect_answers.map (fun v => (pyStrVal v, false))) ∧
        List.Sorted pairLe opts) := by
  constructor
  · intro mr hs h
    rw [mrRender_ok mr h]
    refine ⟨pySorted (optionPairs mr.correct_answers mr.incorrect_answers), ?_, ?_, ?_⟩
    · simp [hs]
    · exact List.perm_insertionSort pairLe _
    · exact List.sorted_insertionSort pairLe _
  · intro perm mc hs h
    rw [mcRender_ok perm mc h]
    refine ⟨pySorted ((pyStrVal mc.correct_answer, true) ::
      mc.incorrect_answers.map (fun v => (pyStrVal v, false))), ?_, ?_, ?_⟩
    · simp [hs]
    · exact List.perm_insertionSort pairLe _
    · exact List.sorted_insertionSort pairLe _

/-- Claim C2 amended witness at concrete fields. -/
theorem claim_C2_amended_witness :
    ((Multiresponse.mk [PyVal.str ['a']] [PyVal.str ['a']] false false 1).shuffle = false ∧
      (Multiresponse.mk [PyVal.str ['a']] [PyVal.str ['a']] false false
          1).correct_answers ≠ [] ∧
      (Multichoice.mk (PyVal.str ['x']) [PyVal.str ['y']] .DROPDOWN false 1).shuffle = false ∧
      (Multichoice.mk (PyVal.str ['x']) [PyVal.str ['y']] .DROPDOWN false
          1).incorrect_answers ≠ []) ∧
    (∃ opts, (mrRender (Multiresponse.mk [PyVal.str ['a']] [PyVal.str ['a']] false false 1)).1 =
        Except.ok ('\x7b' :: intRepr 1 ++ ':' :: "MULTIRESPONSE".toList ++
          mrSuffix (Multiresponse.mk [PyVal.str ['a']] [PyVal.str ['a']] false false 1) ++
          ':' :: joinOptions opts ++ ['\x7d']) ∧
      opts.Perm (optionPairs [PyVal.str ['a']] [PyVal.str ['a']]) ∧
      List.Sorted pairLe opts) ∧
    (∃ opts, mcRender id (Multichoice.mk (PyVal.str ['x']) [PyVal.str ['y']] .DROPDOWN false 1) =
        Except.ok ('\x7b' :: intRepr 1 ++ ':' :: "MULTICHOICE".toList ++
          mcDisplay (Multichoice.mk (PyVal.str ['x']) [PyVal.str ['y']] .DROPDOWN false 1) ++
          ':' :: joinOptions opts ++ ['\x7d']) ∧
      opts.Perm ((pyStrVal (PyVal.str ['x']), true) ::
        [PyVal.str ['y']].map (fun v => (pyStrVal v, false))) ∧
      List.Sorted pairLe opts) :=
  ⟨⟨rfl, by decide, rfl, by decide⟩,
    claim_C2_amended.1 (Multiresponse.mk [PyVal.str ['a']] [PyVal.str ['a']] false false 1)
      rfl (by decide),
    claim_C2_amended.2 id (Multichoice.mk (PyVal.str ['x']) [PyVal.str ['y']] .DROPDOWN false 1)
      rfl (by decide)⟩

theorem mrRender_ok_form (mr : Multiresponse) (h : mr.correct_answers ≠ []) :
    (mrRender mr).1 = Except.ok ('\x7b' :: (intRepr mr.weight ++ (':' ::
      ("MULTIRESPONSE".toList ++ (mrSuffix mr ++ (':' ::
        (joinOptions (if mr.shuffle = true then
            optionPairs mr.correct_answers mr.incorrect_answers
          else pySorted (optionPairs mr.correct_answers mr.incorrect_answers)) ++
         ('\x7d' :: [])))))))) := by
  rw [mrRender_ok mr h]
  simp [List.append_assoc]

theorem mcRender_ok_form (perm : List (Str × Bool) → List (Str × Bool)) (mc : Multichoice)
    (h : mc.incorrect_answers ≠ []) :
    mcRender perm mc = Except.ok ('\x7b' :: (intRepr mc.weight ++ (':' ::
      ("MULTICHOICE".toList ++ (mcDisplay mc ++ (':' ::
        (joinOptions (if mc.shuffle = true then
            perm ((pyStrVal mc.correct_answer, true) ::
              mc.incorrect_answers.map (fun v => (pyStrVal v, false)))
          else pySorted ((pyStrVal mc.correct_answer, true) ::
              mc.incorrect_answers.map (fun v => (pyStrVal v, false)))) ++
         ('\x7d' :: [])))))))) := by
  rw [mcRender_ok perm mc h]
  simp [List.append_assoc]

/-- Claim C8: every rendered field token matches the fixed grammar
`\x7bweight:KIND<suffix>:body\x7d` (for Numerical possibly followed by the
tolerance annotation), and parsing the rendered output recovers the field's
KIND and weight. -/
theorem claim_C8 :
    (∀ n : Numerical, tokenGrammar n.weight "NUMERICAL".toList (numericalChars n) ∧
      parseKindWeight (numericalChars n) = some (n.weight, "NUMERICAL".toList)) ∧
    (∀ sa : ShortAnswer, tokenGrammar sa.weight "SHORTANSWER".toList (saRender sa) ∧
      parseKindWeight (saRender sa) = some (sa.weight, "SHORTANSWER".toList)) ∧
    (∀ mr : Multiresponse, mr.correct_answers ≠ [] →
      ∃ t, (mrRender mr).1 = Except.ok t ∧
        tokenGrammar mr.weight "MULTIRESPONSE".toList t ∧
        parseKindWeight t = some (mr.weight, "MULTIRESPONSE".toList)) ∧
    (∀ (perm : List (Str × Bool) → List (Str × Bool)) (mc : Multichoice),
      mc.incorrect_answers ≠ [] →
      ∃ t, mcRender perm mc = Except.ok t ∧
        tokenGrammar mc.weight "MULTICHOICE".toList t ∧
        parseKindWeight t = some (mc.weight, "MULTICHOICE".toList)) := by
  refine ⟨?_, ?_, ?_, ?_⟩
  · intro n
    constructor
    · refine ⟨[], '=' :: (ratRepr n.answer ++ (':' :: ratRepr n.tolerance)),
        (if n.show_tolerance = true ∧ 0 < n.tolerance then
          " (\\(\\pm ".toList ++ ratRepr n.tolerance ++ "\\))".toList else []), ?_⟩
      rw [numericalChars_form n]
      simp [List.append_assoc]
    · rw [numericalChars_form n]
      exact parseKindWeight_token n.weight _ [] _ _ (by decide) (Or.inl rfl)
  · intro sa
    constructor
    · refine ⟨[], '=' :: sa.answer, [], ?_⟩
      rw [saRender_form sa]
      simp [List.append_assoc]
    · rw [saRender_form sa]
      exact parseKindWeight_token sa.weight _ [] _ _ (by decide) (Or.inl rfl)
  · intro mr h
    refine ⟨_, mrRender_ok_form mr h, ?_, ?_⟩
    · refine ⟨mrSuffix mr, joinOptions (if mr.shuffle = true then
          optionPairs mr.correct_answers mr.incorrect_answers
        else pySorted (optionPairs mr.correct_answers mr.incorrect_answers)), [], ?_⟩
      simp [List.append_assoc]
    · exact parseKindWeight_token mr.weight _ (mrSuffix mr) _ _ (by decide)
        (mrSuffix_shape mr)
  · intro perm mc h
    refine ⟨_, mcRender_ok_form perm mc h, ?_, ?_⟩
    · refine ⟨mcDisplay mc, joinOptions (if mc.shuffle = true then
          perm ((pyStrVal mc.correct_answer, true) ::
            mc.incorrect_answers.map (fun v => (pyStrVal v, false)))
        else pySorted ((pyStrVal mc.correct_answer, true) ::
            mc.incorrect_answers.map (fun v => (pyStrVal v, false)))), [], ?_⟩
      simp [List.append_assoc]
    · exact parseKindWeight_token mc.weight _ (mcDisplay mc) _ _ (by decide)
        (mcDisplay_shape mc)

/-- Claim C8 witness at concrete fields of each kind. -/
theorem claim_C8_witness :
    ((Multiresponse.mk [PyVal.str ['a']] [] true true 1).correct_answers ≠ [] ∧
      (Multichoice.mk (PyVal.str ['x']) [PyVal.str ['y']] .DROPDOWN false 1).incorrect_answers
        ≠ []) ∧
    (tokenGrammar (1 : Int) "NUMERICAL".toList
        (numericalChars (Numerical.mk 3 0 true 1)) ∧
      parseKindWeight (numericalChars (Numerical.mk 3 0 true 1)) =
        some (1, "NUMERICAL".toList)) ∧
    (tokenGrammar (1 : Int) "SHORTANSWER".toList (saRender (ShortAnswer.mk ['h'] 1)) ∧
      parseKindWeight (saRender (ShortAnswer.mk ['h'] 1)) =
        some (1, "SHORTANSWER".toList)) ∧
    (∃ t, (mrRender (Multiresponse.mk [PyVal.str ['a']] [] true true 1)).1 = Except.ok t ∧
      tokenGrammar (1 : Int) "MULTIRESPONSE".toList t ∧
      parseKindWeight t = some (1, "MULTIRESPONSE".toList)) ∧
    (∃ t, mcRender id (Multichoice.mk (PyVal.str ['x']) [PyVal.str ['y']] .DROPDOWN false 1) =
        Except.ok t ∧
      tokenGrammar (1 : Int) "MULTICHOICE".toList t ∧
      parseKindWeight t = some (1, "MULTICHOICE".toList)) :=
  ⟨⟨by decide, by decide⟩,
    claim_C8.1 (Numerical.mk 3 0 true 1),
    claim_C8.2.1 (ShortAnswer.mk ['h'] 1),
    claim_C8.2.2.1 (Multiresponse.mk [PyVal.str ['a']] [] true true 1) (by decide),
    claim_C8.2.2.2 id (Multichoice.mk (PyVal.str ['x']) [PyVal.str ['y']] .DROPDOWN false 1)
      (by decide)⟩

/-- Claim C10: when the correct-answer list is empty, the Multiresponse
validation error is raised only after both answer lists have been replaced by
their string-coerced copies, so the returned state carries the coerced lists
even though rendering fails. -/
theorem claim_C10 (mr : Multiresponse) (h : mr.correct_answers = []) :
    mrRender mr = (Except.error mrErrMsg,
      { mr with correct_answers := coerceList mr.correct_answers,
                incorrect_answers := coerceList mr.incorrect_answers }) := by
  have hc : coerceList mr.correct_answers = [] := by
    rw [coerceList_eq_nil_iff]; exact h
  unfold mrRender
  simp [hc]

/-- Claim C10 witness: a concrete failing render whose returned state shows
the incorrect-answer list replaced by its string-coerced copy. -/
theorem claim_C10_witness :
    (Multiresponse.mk [] [PyVal.int 5] true true 1).correct_answers = [] ∧
    mrRender (Multiresponse.mk [] [PyVal.int 5] true true 1) = (Except.error mrErrMsg,
      { Multiresponse.mk [] [PyVal.int 5] true true 1 with
          correct_answers := coerceList [],
          incorrect_answers := coerceList [PyVal.int 5] }) ∧
    coerceList [PyVal.int 5] ≠ [PyVal.int 5] :=
  ⟨rfl, claim_C10 (Multiresponse.mk [] [PyVal.int 5] true true 1) rfl, by decide⟩

set_option maxRecDepth 40000

/-- Claim C7 counterexample: for the question with contents `"\n    x"` the
rendered CDATA block holds `"\nx"`, not the contents verbatim: `dedent` runs
after interpolation, so interior lines of the contents lose indentation.  The
rendered fragment therefore differs from the spec-mandated verbatim
fragment. -/
theorem claim_C7_counterexample :
    questionChars (Question.mk "n".toList ('\n' :: "    x".toList)) =
      ("<question type=\"cloze\">\n    <name><text>n</text></name>\n" ++
       "    <questiontext>\n    <text><![CDATA[\nx]]></text>\n    </questiontext>\n" ++
       "    <generalfeedback>\n    <text></text>\n    </generalfeedback>\n" ++
       "    <shuffleanswers>1</shuffleanswers>\n</question>").toList ∧
    questionChars (Question.mk "n".toList ('\n' :: "    x".toList)) ≠
      questionSpecChars (Question.mk "n".toList ('\n' :: "    x".toList)) := by
  constructor
  · decide
  · decide

/-- Claim C6 counterexample: a one-question quiz whose contents contain the
question marker yields a document with two occurrences of the marker, not
one per question. -/
theorem claim_C6_counterexample :
    (Quiz.mk [Question.mk "q".toList "<question type=\"cloze\">".toList]).questions.length
      = 1 ∧
    countOcc marker (quizChars (Quiz.mk
      [Question.mk "q".toList "<question type=\"cloze\">".toList])) = 2 := by
  constructor
  · rfl
  · decide

/-- Claim C3: writing a Quiz with no questions fails with the validation
error before any write is attempted: the returned file system is untouched
and no path is written. -/
theorem claim_C3 (fs : List (Str × Str)) (path : Str) (qz : Quiz)
    (h : qz.questions = []) :
    toXmlFile fs path qz = Except.error quizErrMsg ∧
    ∀ fs', toXmlFile fs path qz ≠ Except.ok fs' := by
  unfold toXmlFile
  rw [if_pos h]
  exact ⟨rfl, fun fs' hc => Except.noConfusion hc⟩

/-- Claim C3 witness at a concrete empty quiz. -/
theorem claim_C3_witness :
    (Quiz.mk []).questions = [] ∧
    (toXmlFile [] "out.xml".toList (Quiz.mk []) = Except.error quizErrMsg ∧
      ∀ fs', toXmlFile [] "out.xml".toList (Quiz.mk []) ≠ Except.ok fs') :=
  ⟨rfl, claim_C3 [] "out.xml".toList (Quiz.mk []) rfl⟩

theorem questionRaw_lines (q : Question) (hn : '\n' ∉ q.name) (hc : '\n' ∉ q.contents) :
    pySplit (questionRaw q) = [[], qLine1, qNamePre ++ (q.name ++ qNameSuf), qLine3,
      qCDataPre ++ (q.contents ++ qCDataSuf), qLine5, qLine6, qLine7, qLine8, qLine9,
      qLine10] := by
  have hA : questionRawA = '\n' :: (qLine1 ++ '\n' :: qNamePre) := by decide
  have hB : questionRawB = qNameSuf ++ ('\n' :: (qLine3 ++ '\n' :: qCDataPre)) := by decide
  have hC : questionRawC = qCDataSuf ++ ('\n' :: (qLine5 ++ '\n' :: (qLine6 ++ '\n' ::
      (qLine7 ++ '\n' :: (qLine8 ++ '\n' :: (qLine9 ++ '\n' :: qLine10)))))) := by decide
  have hraw : questionRaw q = '\n' :: (qLine1 ++ '\n' :: ((qNamePre ++ (q.name ++ qNameSuf)) ++
      '\n' :: (qLine3 ++ '\n' :: ((qCDataPre ++ (q.contents ++ qCDataSuf)) ++
      '\n' :: (qLine5 ++ '\n' :: (qLine6 ++ '\n' :: (qLine7 ++ '\n' ::
      (qLine8 ++ '\n' :: (qLine9 ++ '\n' :: qLine10))))))))) := by
    unfold questionRaw
    rw [hA, hB, hC]
    simp [List.append_assoc]
  have hnlName : ('\n' : Char) ∉ qNamePre ++ (q.name ++ qNameSuf) := by
    intro h
    rcases List.mem_append.1 h with h1 | h2
    · exact absurd h1 (by decide)
    · rcases List.mem_append.1 h2 with h3 | h4
      · exact hn h3
      · exact absurd h4 (by decide)
  have hnlCData : ('\n' : Char) ∉ qCDataPre ++ (q.contents ++ qCDataSuf) := by
    intro h
    rcases List.mem_append.1 h with h1 | h2
    · exact absurd h1 (by decide)
    · rcases List.mem_append.1 h2 with h3 | h4
      · exact hc h3
      · exact absurd h4 (by decide)
  rw [hraw, pySplit_cons_nl, pySplit_append_nl _ _ (by decide),
    pySplit_append_nl _ _ hnlName, pySplit_append_nl _ _ (by decide),
    pySplit_append_nl _ _ hnlCData, pySplit_append_nl _ _ (by decide),
    pySplit_append_nl _ _ (by decide), pySplit_append_nl _ _ (by decide),
    pySplit_append_nl _ _ (by decide), pySplit_append_nl _ _ (by decide),
    pySplit_no_nl _ (by decide)]

theorem questionLines_wsNorm (q : Question) :
    [([] : Str), qLine1, qNamePre ++ (q.name ++ qNameSuf), qLine3,
      qCDataPre ++ (q.contents ++ qCDataSuf), qLine5, qLine6, qLine7, qLine8, qLine9,
      qLine10].map wsNorm =
    [[], qLine1, qNamePre ++ (q.name ++ qNameSuf), qLine3,
      qCDataPre ++ (q.contents ++ qCDataSuf), qLine5, qLine6, qLine7, qLine8, qLine9,
      qLine10] := by
  have hname := wsNorm_of_has_nonws (qNamePre ++ (q.name ++ qNameSuf)) '<'
    (List.mem_append_left _ (by decide)) (by decide)
  have hcd := wsNorm_of_has_nonws (qCDataPre ++ (q.contents ++ qCDataSuf)) '<'
    (List.mem_append_left _ (by decide)) (by decide)
  simp only [List.map_cons, List.map_nil, wsNorm_nil, hname, hcd]
  norm_num [show wsNorm qLine1 = qLine1 from by decide,
    show wsNorm qLine3 = qLine3 from by decide,
    show wsNorm qLine5 = qLine5 from by decide,
    show wsNorm qLine6 = qLine6 from by decide,
    show wsNorm qLine7 = qLine7 from by decide,
    show wsNorm qLine8 = qLine8 from by decide,
    show wsNorm qLine9 = qLine9 from by decide,
    show wsNorm qLine10 = qLine10 from by decide]

theorem questionLines_margin (q : Question) :
    computeMargin [[], qLine1, qNamePre ++ (q.name ++ qNameSuf), qLine3,
      qCDataPre ++ (q.contents ++ qCDataSuf), qLine5, qLine6, qLine7, qLine8, qLine9,
      qLine10] = "    ".toList := by
  have hPname : ((qNamePre ++ (q.name ++ qNameSuf)).any fun c => !(isIndentWs c)) = true :=
    List.any_eq_true.2 ⟨'<', List.mem_append_left _ (by decide), by decide⟩
  have hPcd : ((qCDataPre ++ (q.contents ++ qCDataSuf)).any fun c => !(isIndentWs c)) = true :=
    List.any_eq_true.2 ⟨'<', List.mem_append_left _ (by decide), by decide⟩
  have hIname : lineIndent (qNamePre ++ (q.name ++ qNameSuf)) = "        ".toList := by
    unfold lineIndent
    rw [takeWhile_append_stop isIndentWs qNamePre _ ⟨'<', by decide, by decide⟩]
    decide
  have hIcd : lineIndent (qCDataPre ++ (q.contents ++ qCDataSuf)) = "        ".toList := by
    unfold lineIndent
    rw [takeWhile_append_stop isIndentWs qCDataPre _ ⟨'<', by decide, by decide⟩]
    decide
  have hfilter : ([([] : Str), qLine1, qNamePre ++ (q.name ++ qNameSuf), qLine3,
      qCDataPre ++ (q.contents ++ qCDataSuf), qLine5, qLine6, qLine7, qLine8, qLine9,
      qLine10].filter (fun l => l.any (fun c => !(isIndentWs c)))) =
      [qLine1, qNamePre ++ (q.name ++ qNameSuf), qLine3,
        qCDataPre ++ (q.contents ++ qCDataSuf), qLine5, qLine6, qLine7, qLine8, qLine9,
        qLine10] := by
    simp only [List.filter_cons, List.filter_nil, hPname, hPcd,
      show (([] : Str).any fun c => !(isIndentWs c)) = false from rfl,
      show (qLine1.any fun c => !(isIndentWs c)) = true from by decide,
      show (qLine3.any fun c => !(isIndentWs c)) = true from by decide,
      show (qLine5.any fun c => !(isIndentWs c)) = true from by decide,
      show (qLine6.any fun c => !(isIndentWs c)) = true from by decide,
      show (qLine7.any fun c => !(isIndentWs c)) = true from by decide,
      show (qLine8.any fun c => !(isIndentWs c)) = true from by decide,
      show (qLine9.any fun c => !(isIndentWs c)) = true from by decide,
      show (qLine10.any fun c => !(isIndentWs c)) = true from by decide]
    simp
  unfold computeMargin
  rw [hfilter]
  simp only [List.map_cons, List.map_nil, hIname, hIcd,
    show lineIndent qLine1 = "    ".toList from by decide,
    show lineIndent qLine3 = "        ".toList from by decide,
    show lineIndent qLine5 = "        ".toList from by decide,
    show lineIndent qLine6 = "        ".toList from by decide,
    show lineIndent qLine7 = "        ".toList from by decide,
    show lineIndent qLine8 = "        ".toList from by decide,
    show lineIndent qLine9 = "        ".toList from by decide,
    show lineIndent qLine10 = "    ".toList from by decide]
  decide

theorem dropWhile_eq_self_witness (p : Char → Bool) (l : Str)
    (h : List.dropWhile p l = l) (hne : l ≠ []) : ∃ c ∈ l, p c = false := by
  cases l with
  | nil => exact absurd rfl hne
  | cons c rest =>
    rw [List.dropWhile_cons] at h
    by_cases hpc : p c = true
    · rw [if_pos hpc] at h
      have hlen := (List.dropWhile_suffix p (l := rest)).length_le
      rw [h] at hlen
      simp at hlen
    · exact ⟨c, by simp, Bool.of_not_eq_true hpc⟩

theorem stripRight_append_lit (s t : Str)
    (ht : List.dropWhile isPyWs t.reverse = t.reverse) (htne : t ≠ []) :
    ((s ++ t).reverse.dropWhile isPyWs).reverse = s ++ t := by
  have htr : t.reverse ≠ [] := by simpa using htne
  obtain ⟨c, hcmem, hcws⟩ := dropWhile_eq_self_witness isPyWs t.reverse ht htr
  rw [List.reverse_append,
    dropWhile_append_stop isPyWs t.reverse s.reverse ⟨c, hcmem, hcws⟩, ht,
    ← List.reverse_append, List.reverse_reverse]

theorem dropWhile_ws_of_head_lt (l : Str) (h : l.head? = some '<') :
    List.dropWhile isPyWs l = l := by
  cases l with
  | nil => simp at h
  | cons c rest =>
    rw [List.head?_cons, Option.some_inj] at h
    subst h
    rw [List.dropWhile_cons, if_neg (by decide)]

theorem question_dedent (q : Question) (hn : '\n' ∉ q.name) (hc : '\n' ∉ q.contents) :
    dedentChars (questionRaw q) = '\n' :: questionSpecChars q := by
  have hS1 : ("<question type=\"cloze\">\n    <name><text>".toList : Str) =
      "<question type=\"cloze\">".toList ++ ('\n' :: "    <name><text>".toList) := by decide
  have hS2 : ("</text></name>\n    <questiontext>\n    <text><![CDATA[".toList : Str) =
      qNameSuf ++ ('\n' :: ("    <questiontext>".toList ++
        ('\n' :: "    <text><![CDATA[".toList))) := by decide
  have hS3 : (("]]></text>\n    </questiontext>\n    <generalfeedback>\n    <text></text>\n" ++
      "    </generalfeedback>\n    <shuffleanswers>1</shuffleanswers>\n</question>").toList
      : Str) =
      qCDataSuf ++ ('\n' :: ("    </questiontext>".toList ++ ('\n' :: ("    <generalfeedback>".toList ++ ('\n' :: ("    <text></text>".toList ++ ('\n' :: ("    </generalfeedback>".toList ++ ('\n' :: ("    <shuffleanswers>1</shuffleanswers>".toList ++ ('\n' :: "</question>".toList))))))))))) := by decide
  unfold dedentChars
  rw [questionRaw_lines q hn hc, questionLines_wsNorm q]
  unfold dedentLines
  rw [questionLines_margin q]
  simp only [List.map_cons, List.map_nil,
    removeMargin_concrete "    ".toList qNamePre (q.name ++ qNameSuf) (by decide),
    removeMargin_concrete "    ".toList qCDataPre (q.contents ++ qCDataSuf) (by decide),
    show removeMargin "    ".toList [] = [] from by decide,
    show removeMargin "    ".toList qLine1 = "<question type=\"cloze\">".toList from by decide,
    show removeMargin "    ".toList qLine3 = "    <questiontext>".toList from by decide,
    show removeMargin "    ".toList qLine5 = "    </questiontext>".toList from by decide,
    show removeMargin "    ".toList qLine6 = "    <generalfeedback>".toList from by decide,
    show removeMargin "    ".toList qLine7 = "    <text></text>".toList from by decide,
    show removeMargin "    ".toList qLine8 = "    </generalfeedback>".toList from by decide,
    show removeMargin "    ".toList qLine9 =
      "    <shuffleanswers>1</shuffleanswers>".toList from by decide,
    show removeMargin "    ".toList qLine10 = "</question>".toList from by decide,
    show ("    ".toList : Str).length = 4 from by decide,
    show qNamePre.drop 4 = "    <name><text>".toList from by decide,
    show qCDataPre.drop 4 = "    <text><![CDATA[".toList from by decide]
  simp only [joinNl, List.nil_append]
  unfold questionSpecChars
  rw [hS1, hS2, hS3]
  simp [List.append_assoc]

/-- Claim C7 as amended: for a question whose name and contents contain no
newline, the rendered fragment is exactly the question element wrapping the
name, the contents verbatim inside the CDATA block, the empty general
feedback, and the fixed shuffleanswers marker. -/
theorem claim_C7_amended (q : Question) (hn : '\n' ∉ q.name) (hc : '\n' ∉ q.contents) :
    questionChars q = questionSpecChars q := by
  have hne1 : ("<question type=\"cloze\">\n    <name><text>".toList : Str) ≠ [] := by decide
  have hne2 : ("<question type=\"cloze\">\n    <name><text>".toList : Str) ++ q.name ≠ [] :=
    fun h => hne1 (List.append_eq_nil.1 h).1
  have hne3 : (("<question type=\"cloze\">\n    <name><text>".toList : Str) ++ q.name ++
      "</text></name>\n    <questiontext>\n    <text><![CDATA[".toList) ≠ [] :=
    fun h => hne2 (List.append_eq_nil.1 h).1
  have hne4 : (("<question type=\"cloze\">\n    <name><text>".toList : Str) ++ q.name ++
      "</text></name>\n    <questiontext>\n    <text><![CDATA[".toList ++ q.contents) ≠ [] :=
    fun h => hne3 (List.append_eq_nil.1 h).1
  have hh : (questionSpecChars q).head? = some '<' := by
    unfold questionSpecChars
    rw [List.head?_append_of_ne_nil _ hne4, List.head?_append_of_ne_nil _ hne3,
      List.head?_append_of_ne_nil _ hne2, List.head?_append_of_ne_nil _ hne1]
    decide
  unfold questionChars
  rw [question_dedent q hn hc]
  unfold pyStrip
  rw [dropWhile_ws_nl, dropWhile_ws_of_head_lt _ hh]
  unfold questionSpecChars
  exact stripRight_append_lit _ _ (by decide) (by decide)

/-! Counting marker occurrences: basic lemmas. -/

theorem countOcc_nil (pat : Str) : countOcc pat [] = 0 := rfl

theorem countOcc_cons (pat : Str) (c : Char) (t : Str) :
    countOcc pat (c :: t) = (if pat <+: (c :: t) then 1 else 0) + countOcc pat t := by
  by_cases h : pat <+: (c :: t)
  · simp only [countOcc]
    rw [if_pos ((isPrefixOf_eq _ _).2 h), if_pos h]
  · simp only [countOcc]
    rw [if_neg (fun hh => h ((isPrefixOf_eq _ _).1 hh)), if_neg h]

theorem countOcc_eq_zero (pat l : Str) (hp : pat ≠ []) :
    countOcc pat l = 0 ↔ ¬ pat <:+: l := by
  induction l with
  | nil => simp [countOcc_nil, List.infix_nil, hp]
  | cons c t ih =>
    rw [countOcc_cons, List.infix_cons_iff]
    by_cases h : pat <+: c :: t
    · simp [h]
    · simp [h, ih]

theorem prefix_cons_nl (pat : Str) (t : Str) (hnl : '\n' ∉ pat) :
    pat <+: ('\n' :: t) ↔ pat = [] := by
  constructor
  · intro h
    cases pat with
    | nil => rfl
    | cons p ps =>
      have := (List.cons_prefix_cons.1 h).1
      exact absurd (by simp [this]) hnl
  · rintro rfl
    exact List.nil_prefix

theorem prefix_append_nl (pat a b : Str) (hnl : '\n' ∉ pat) :
    pat <+: (a ++ '\n' :: b) ↔ pat <+: a := by
  constructor
  · intro h
    rcases le_or_lt pat.length a.length with hle | hlt
    · exact List.prefix_of_prefix_length_le h (List.prefix_append a ('\n' :: b)) hle
    · have ha : a <+: pat :=
        List.prefix_of_prefix_length_le (List.prefix_append a ('\n' :: b)) h (le_of_lt hlt)
      obtain ⟨t, rfl⟩ := ha
      rw [List.prefix_append_right_inj] at h
      cases t with
      | nil => simp
      | cons x t' =>
        have hx : x = '\n' := (List.cons_prefix_cons.1 h).1
        exact absurd (by simp [hx] : '\n' ∈ a ++ x :: t') hnl
  · intro h
    exact h.trans (List.prefix_append a _)

theorem countOcc_cons_nl (pat : Str) (x : Str) (hp : pat ≠ []) (hnl : '\n' ∉ pat) :
    countOcc pat ('\n' :: x) = countOcc pat x := by
  rw [countOcc_cons, if_neg (fun h => hp ((prefix_cons_nl pat x hnl).1 h))]
  omega

theorem countOcc_append_nl (pat a b : Str) (hp : pat ≠ []) (hnl : '\n' ∉ pat) :
    countOcc pat (a ++ '\n' :: b) = countOcc pat a + countOcc pat b := by
  induction a with
  | nil =>
    rw [List.nil_append, countOcc_cons_nl pat b hp hnl, countOcc_nil]
    omega
  | cons c a' ih =>
    rw [List.cons_append, countOcc_cons, ih, countOcc_cons pat c a']
    have hiff : pat <+: c :: (a' ++ '\n' :: b) ↔ pat <+: c :: a' := by
      rw [← List.cons_append]
      exact prefix_append_nl pat (c :: a') b hnl
    by_cases h : pat <+: c :: a'
    · rw [if_pos (hiff.2 h), if_pos h]
      omega
    · rw [if_neg (fun hh => h (hiff.1 hh)), if_neg h]
      omega

theorem countOcc_joinNl (pat : Str) (ls : List Str) (hp : pat ≠ []) (hnl : '\n' ∉ pat) :
    countOcc pat (joinNl ls) = (ls.map (countOcc pat)).sum := by
  induction ls with
  | nil => simp [joinNl, countOcc_nil]
  | cons l ls ih =>
    cases ls with
    | nil => simp [joinNl]
    | cons l2 ls2 =>
      rw [show joinNl (l :: l2 :: ls2) = l ++ '\n' :: joinNl (l2 :: ls2) from rfl,
        countOcc_append_nl pat _ _ hp hnl, ih]
      simp

theorem countOcc_dropWhile (pat : Str) (p : Char → Bool) (l : Str) (c : Char) (pat' : Str)
    (hpat : pat = c :: pat') (hc : p c = false) :
    countOcc pat (l.dropWhile p) = countOcc pat l := by
  induction l with
  | nil => rfl
  | cons d t ih =>
    rw [List.dropWhile_cons]
    by_cases hd : p d = true
    · rw [if_pos hd, ih, countOcc_cons]
      have hnp : ¬ pat <+: d :: t := by
        intro hpre
        rw [hpat] at hpre
        have he := (List.cons_prefix_cons.1 hpre).1
        rw [← he, hc] at hd
        exact Bool.false_ne_true hd
      rw [if_neg hnp]
      omega
    · rw [if_neg hd]

theorem countOcc_snoc (pat pat' : Str) (e c : Char) (hpat : pat = pat' ++ [e])
    (hne : e ≠ c) (a : Str) : countOcc pat (a ++ [c]) = countOcc pat a := by
  induction a with
  | nil =>
    rw [List.nil_append, countOcc_nil]
    rw [show ([c] : Str) = c :: [] from rfl, countOcc_cons, countOcc_nil]
    have hnp : ¬ pat <+: [c] := by
      intro hpre
      have hlen := hpre.length_le
      rw [hpat, List.length_append, List.length_singleton, List.length_singleton] at hlen
      have hp' : pat' = [] := List.eq_nil_of_length_eq_zero (by omega)
      rw [hpat, hp'] at hpre
      have := (List.cons_prefix_cons.1 hpre).1
      exact hne this
    rw [if_neg hnp]
  | cons d a' ih =>
    rw [List.cons_append, countOcc_cons, ih, countOcc_cons pat d a']
    have hiff : pat <+: d :: (a' ++ [c]) ↔ pat <+: d :: a' := by
      constructor
      · intro h
        rcases le_or_lt pat.length (d :: a').length with hle | hlt
        · exact List.prefix_of_prefix_length_le h
            (by rw [← List.cons_append]; exact List.prefix_append (d :: a') [c]) hle
        · have ha : (d :: a') <+: pat := by
            refine List.prefix_of_prefix_length_le ?_ h (le_of_lt hlt)
            rw [← List.cons_append]
            exact List.prefix_append (d :: a') [c]
          obtain ⟨t, ht⟩ := ha
          rw [← ht, ← List.cons_append, List.prefix_append_right_inj] at h
          cases t with
          | nil => rw [← ht]; simp
          | cons x t' =>
            have hx : x = c := (List.cons_prefix_cons.1 h).1
            have ht' : t' = [] := by
              have := (List.cons_prefix_cons.1 h).2
              simpa using this.length_le
            have hpec : pat = (d :: a') ++ [c] := by rw [← ht, hx, ht']
            rw [hpat] at hpec
            have := congrArg List.getLast? hpec
            rw [List.getLast?_concat, List.getLast?_concat] at this
            exact absurd (Option.some_inj.1 this) hne
      · intro h
        refine h.trans ?_
        rw [← List.cons_append]
        exact List.prefix_append (d :: a') [c]
    by_cases h : pat <+: d :: a'
    · rw [if_pos (hiff.2 h), if_pos h]
    · rw [if_neg (fun hh => h (hiff.1 hh)), if_neg h]

theorem countOcc_append_run (pat pat' : Str) (e : Char) (hpat : pat = pat' ++ [e])
    (p : Char → Bool) (he : p e = false) (a run : Str)
    (hrun : ∀ c ∈ run, p c = true) : countOcc pat (a ++ run) = countOcc pat a := by
  induction run using List.reverseRecOn with
  | nil => simp
  | append_singleton rs c ihr =>
    have hec : e ≠ c := by
      intro hec
      rw [hec, hrun c (by simp)] at he
      simp at he
    rw [← List.append_assoc, countOcc_snoc pat pat' e c hpat hec (a ++ rs)]
    exact ihr (fun x hx => hrun x (by simp [hx]))

theorem countOcc_stripRight (pat pat' : Str) (e : Char) (hpat : pat = pat' ++ [e])
    (he : isPyWs e = false) (l : Str) :
    countOcc pat ((l.reverse.dropWhile isPyWs).reverse) = countOcc pat l := by
  have hdecomp : l = (l.reverse.dropWhile isPyWs).reverse ++
      (l.reverse.takeWhile isPyWs).reverse := by
    rw [← List.reverse_append, List.takeWhile_append_dropWhile, List.reverse_reverse]
  have hrun : ∀ c ∈ (l.reverse.takeWhile isPyWs).reverse, isPyWs c = true := by
    intro c hc
    exact List.mem_takeWhile_imp (List.mem_reverse.1 hc)
  conv_rhs => rw [hdecomp]
  rw [countOcc_append_run pat pat' e hpat isPyWs he _ _ hrun]

theorem countOcc_pyStrip (pat pat' pat'' : Str) (c e : Char) (h1 : pat = c :: pat'')
    (h2 : pat = pat' ++ [e]) (hc : isPyWs c = false) (he : isPyWs e = false) (s : Str) :
    countOcc pat (pyStrip s) = countOcc pat s := by
  unfold pyStrip
  rw [countOcc_stripRight pat pat' e h2 he, countOcc_dropWhile pat isPyWs s c pat'' h1 hc]

/-! Infix decomposition across an append, and margin facts. -/

theorem infix_append_cases (pat a b : Str) (h : pat <:+: a ++ b) :
    pat <:+: a ∨ pat <:+: b ∨
      ∃ x y, x ++ y = pat ∧ x ≠ [] ∧ y ≠ [] ∧ x <:+ a ∧ y <+: b := by
  obtain ⟨s, t, hst⟩ := h
  rcases List.append_eq_append_iff.1 hst with ⟨k, hk1, hk2⟩ | ⟨k, hk1, hk2⟩
  · left
    exact ⟨s, k, by rw [hk1]⟩
  · rcases List.append_eq_append_iff.1 hk1 with ⟨m, hm1, hm2⟩ | ⟨m, hm1, hm2⟩
    · by_cases hmnil : m = []
      · subst hmnil
        right; left
        refine ⟨[], t, ?_⟩
        rw [List.nil_append] at hm2
        rw [hk2, List.nil_append, hm2]
      · by_cases hknil : k = []
        · subst hknil
          rw [List.append_nil] at hm2
          left
          exact ⟨s, [], by rw [List.append_nil, hm1, hm2]⟩
        · right; right
          exact ⟨m, k, hm2.symm, hmnil, hknil, ⟨s, hm1.symm⟩, ⟨t, hk2.symm⟩⟩
    · right; left
      refine ⟨m, t, ?_⟩
      rw [hk2, hm2, List.append_assoc]

theorem notInfix_append (pat a b : Str) (ha : ¬ pat <:+: a) (hb : ¬ pat <:+: b)
    (hstr : ∀ k, 0 < k → k < pat.length →
      ¬ (pat.take k <:+ a) ∨ ¬ (pat.drop k <+: b)) :
    ¬ pat <:+: (a ++ b) := by
  intro h
  rcases infix_append_cases pat a b h with h1 | h2 | ⟨x, y, hxy, hx, hy, hxa, hyb⟩
  · exact ha h1
  · exact hb h2
  · have hxpat : x <+: pat := ⟨y, hxy⟩
    have hxtake : x = pat.take x.length := List.prefix_iff_eq_take.1 hxpat
    have hydrop : y = pat.drop x.length := by
      have h1 := congrArg (List.drop x.length) hxy
      rw [List.drop_left] at h1
      exact h1
    have hk1 : 0 < x.length := List.length_pos.2 hx
    have hk2 : x.length < pat.length := by
      rw [← hxy, List.length_append]
      have : 0 < y.length := List.length_pos.2 hy
      omega
    rcases hstr x.length hk1 hk2 with hcon | hcon
    · rw [← hxtake] at hcon
      exact hcon hxa
    · rw [← hydrop] at hcon
      exact hcon hyb

theorem head?_of_pfx (q l : Str) (h : q <+: l) (hq : q ≠ []) : q.head? = l.head? := by
  obtain ⟨t, rfl⟩ := h
  exact (List.head?_append_of_ne_nil q hq).symm

theorem pySplit_shape (s : Str) :
    ∃ h t, pySplit s = h :: t ∧ h <+: s ∧ ∀ l ∈ t, l <:+: s := by
  induction s with
  | nil => exact ⟨[], [], rfl, List.nil_prefix, by simp⟩
  | cons c rest ih =>
    obtain ⟨h, t, hsplit, hpfx, hinf⟩ := ih
    by_cases hc : c = '\n'
    · subst hc
      refine ⟨[], pySplit rest, pySplit_cons_nl rest, List.nil_prefix, ?_⟩
      intro l hl
      rw [hsplit] at hl
      rcases List.mem_cons.1 hl with rfl | hl'
      · exact List.infix_cons hpfx.isInfix
      · exact List.infix_cons (hinf l hl')
    · refine ⟨c :: h, t, ?_, ?_, ?_⟩
      · simp only [pySplit, if_neg hc, hsplit]
      · exact List.cons_prefix_cons.2 ⟨rfl, hpfx⟩
      · intro l hl
        exact List.infix_cons (hinf l hl)

theorem infix_of_mem_pySplit (s l : Str) (h : l ∈ pySplit s) : l <:+: s := by
  obtain ⟨hd, t, hsplit, hpfx, hinf⟩ := pySplit_shape s
  rw [hsplit] at h
  rcases List.mem_cons.1 h with rfl | h'
  · exact hpfx.isInfix
  · exact hinf l h'

theorem commonPfx_pfx (a b : Str) : commonPfx a b <+: a ∧ commonPfx a b <+: b := by
  induction a generalizing b with
  | nil => cases b <;> simp [commonPfx]
  | cons x as ih =>
    cases b with
    | nil => simp [commonPfx]
    | cons y bs =>
      by_cases hxy : x = y
      · subst hxy
        simp only [commonPfx, if_pos rfl]
        exact ⟨List.cons_prefix_cons.2 ⟨rfl, (ih bs).1⟩,
          List.cons_prefix_cons.2 ⟨rfl, (ih bs).2⟩⟩
      · simp [commonPfx, hxy]

theorem marginStep_pfx (m i : Str) : marginStep m i <+: m ∧ marginStep m i <+: i := by
  unfold marginStep
  split_ifs with h1 h2
  · exact ⟨List.prefix_rfl, (isPrefixOf_eq _ _).1 h1⟩
  · exact ⟨(isPrefixOf_eq _ _).1 h2, List.prefix_rfl⟩
  · exact commonPfx_pfx m i

theorem foldl_marginStep_acc (L : List Str) : ∀ acc, L.foldl marginStep acc <+: acc := by
  induction L with
  | nil => intro acc; exact List.prefix_rfl
  | cons i L' ih =>
    intro acc
    exact (ih (marginStep acc i)).trans (marginStep_pfx acc i).1

theorem foldl_marginStep_mem (L : List Str) : ∀ acc x, x ∈ L →
    L.foldl marginStep acc <+: x := by
  induction L with
  | nil => intro acc x hx; exact absurd hx (List.not_mem_nil x)
  | cons i L' ih =>
    intro acc x hx
    rcases List.mem_cons.1 hx with rfl | hx'
    · exact (foldl_marginStep_acc L' (marginStep acc x)).trans (marginStep_pfx acc x).2
    · exact ih (marginStep acc i) x hx'

theorem computeMargin_pfx (lines : List Str) (l : Str) (hl : l ∈ lines)
    (hnonws : (l.any (fun c => !(isIndentWs c))) = true) :
    computeMargin lines <+: lineIndent l := by
  have hmem : lineIndent l ∈
      (lines.filter (fun l => l.any (fun c => !(isIndentWs c)))).map lineIndent :=
    List.mem_map_of_mem lineIndent (List.mem_filter.2 ⟨hl, hnonws⟩)
  unfold computeMargin
  rcases hind : (lines.filter (fun l => l.any (fun c => !(isIndentWs c)))).map lineIndent
    with _ | ⟨i, rest⟩
  · rw [hind] at hmem
    exact absurd hmem (List.not_mem_nil _)
  · rw [hind] at hmem
    rw [hind]
    rcases List.mem_cons.1 hmem with he | hmem'
    · rw [he]
      exact foldl_marginStep_acc rest i
    · exact foldl_marginStep_mem rest i _ hmem'

theorem removeMargin_nil (m : Str) : removeMargin m [] = [] := by
  unfold removeMargin
  split_ifs with h
  · exact List.drop_nil
  · rfl

theorem removeMargin_suffix (m l : Str) : removeMargin m l <:+ l := by
  unfold removeMargin
  split_ifs with h
  · exact List.drop_suffix _ _
  · exact List.suffix_rfl

/-! The marker occurs exactly once in a rendered question fragment. -/

theorem rawRest_not_infix (nm ct : Str) (hn : ¬ marker <:+: nm) (hc : ¬ marker <:+: ct) :
    ¬ marker <:+: (qNamePre ++ (nm ++ (questionRawB ++ (ct ++ questionRawC)))) := by
  have hdecC : ∀ k, k < marker.length → 0 < k → ¬ (marker.drop k <+: questionRawC) := by
    decide
  have hdecB : ∀ k, k < marker.length → 0 < k → ¬ (marker.take k <:+ questionRawB) := by
    decide
  have hdecP : ∀ k, k < marker.length → 0 < k → ¬ (marker.take k <:+ qNamePre) := by decide
  have hheadk : ∀ k, k < marker.length → 0 < k → (marker.drop k).head? ≠ some '<' := by decide
  have h1 : ¬ marker <:+: (ct ++ questionRawC) :=
    notInfix_append marker ct questionRawC hc (by decide)
      (fun k hk1 hk2 => Or.inr (hdecC k hk2 hk1))
  have h2 : ¬ marker <:+: (questionRawB ++ (ct ++ questionRawC)) :=
    notInfix_append marker questionRawB _ (by decide) h1
      (fun k hk1 hk2 => Or.inl (hdecB k hk2 hk1))
  have h3 : ¬ marker <:+: (nm ++ (questionRawB ++ (ct ++ questionRawC))) := by
    refine notInfix_append marker nm _ hn h2 ?_
    intro k hk1 hk2
    right
    intro hpre
    have hdrop_ne : marker.drop k ≠ [] := by
      intro hnil
      rw [List.drop_eq_nil_iff] at hnil
      omega
    have hh := head?_of_pfx _ _ hpre hdrop_ne
    have hBhead : (questionRawB ++ (ct ++ questionRawC)).head? = some '<' := by
      rw [List.head?_append_of_ne_nil _ (by decide : questionRawB ≠ [])]
      decide
    rw [hBhead] at hh
    exact hheadk k hk2 hk1 hh
  exact notInfix_append marker qNamePre _ (by decide) h3
    (fun k hk1 hk2 => Or.inl (hdecP k hk2 hk1))

theorem questionRaw_split (q : Question) :
    pySplit (questionRaw q) = [] :: qLine1 ::
      pySplit (qNamePre ++ (q.name ++ (questionRawB ++ (q.contents ++ questionRawC)))) := by
  have hA : questionRawA = '\n' :: (qLine1 ++ ('\n' :: qNamePre)) := by decide
  have hraw : questionRaw q = '\n' :: (qLine1 ++ '\n' ::
      (qNamePre ++ (q.name ++ (questionRawB ++ (q.contents ++ questionRawC))))) := by
    unfold questionRaw
    rw [hA]
    simp [List.append_assoc]
  rw [hraw, pySplit_cons_nl, pySplit_append_nl _ _ (by decide)]

theorem questionChars_count (q : Question) (hn : ¬ marker <:+: q.name)
    (hc : ¬ marker <:+: q.contents) : countOcc marker (questionChars q) = 1 := by
  have hRinf : ¬ marker <:+:
      (qNamePre ++ (q.name ++ (questionRawB ++ (q.contents ++ questionRawC)))) :=
    rawRest_not_infix q.name q.contents hn hc
  unfold questionChars dedentChars
  rw [questionRaw_split q]
  rw [show ([] :: qLine1 :: pySplit (qNamePre ++ (q.name ++ (questionRawB ++
      (q.contents ++ questionRawC))))).map wsNorm = [] :: qLine1 ::
      (pySplit (qNamePre ++ (q.name ++ (questionRawB ++
        (q.contents ++ questionRawC))))).map wsNorm from by
    rw [List.map_cons, List.map_cons, wsNorm_nil, (by decide : wsNorm qLine1 = qLine1)]]
  unfold dedentLines
  rw [List.map_cons, List.map_cons, removeMargin_nil]
  rw [countOcc_pyStrip marker "<question type=\"cloze\"".toList
    "question type=\"cloze\">".toList '<' '>' (by decide) (by decide) (by decide) (by decide)]
  rw [countOcc_joinNl marker _ (by decide) (by decide)]
  rw [List.map_cons, List.map_cons, List.sum_cons, List.sum_cons, countOcc_nil]
  have hmpfx : computeMargin ([] :: qLine1 :: (pySplit (qNamePre ++ (q.name ++
      (questionRawB ++ (q.contents ++ questionRawC))))).map wsNorm) <+: "    ".toList := by
    have h := computeMargin_pfx ([] :: qLine1 :: (pySplit (qNamePre ++ (q.name ++
      (questionRawB ++ (q.contents ++ questionRawC))))).map wsNorm) qLine1
      (by simp) (by decide)
    rw [(by decide : lineIndent qLine1 = "    ".toList)] at h
    exact h
  have hq1 : qLine1 = "    ".toList ++ marker := by decide
  have hmline : countOcc marker (removeMargin (computeMargin ([] :: qLine1 ::
      (pySplit (qNamePre ++ (q.name ++ (questionRawB ++
        (q.contents ++ questionRawC))))).map wsNorm)) qLine1) = 1 := by
    rw [removeMargin_pfx _ qLine1
      (hmpfx.trans (by rw [hq1]; exact List.prefix_append _ _))]
    rw [hq1, List.drop_append_of_le_length (by simpa using hmpfx.length_le)]
    rw [(by decide : ("    ".toList : Str) = List.replicate 4 ' '), List.drop_replicate]
    have hcnt : ∀ j, j ≤ 4 → countOcc marker (List.replicate j ' ' ++ marker) = 1 := by
      decide
    exact hcnt _ (by omega)
  have hzero : ((((pySplit (qNamePre ++ (q.name ++ (questionRawB ++
      (q.contents ++ questionRawC))))).map wsNorm).map (removeMargin
        (computeMargin ([] :: qLine1 :: (pySplit (qNamePre ++ (q.name ++ (questionRawB ++
          (q.contents ++ questionRawC))))).map wsNorm)))).map (countOcc marker)).sum = 0 := by
    apply List.sum_eq_zero
    intro x hx
    obtain ⟨l', hl', rfl⟩ := List.mem_map.1 hx
    obtain ⟨l0, hl0, rfl⟩ := List.mem_map.1 hl'
    obtain ⟨l1, hl1, rfl⟩ := List.mem_map.1 hl0
    have hinf : removeMargin (computeMargin ([] :: qLine1 :: (pySplit (qNamePre ++
        (q.name ++ (questionRawB ++ (q.contents ++ questionRawC))))).map wsNorm))
        (wsNorm l1) <:+: (qNamePre ++ (q.name ++ (questionRawB ++
          (q.contents ++ questionRawC)))) := by
      have s1 := removeMargin_suffix (computeMargin ([] :: qLine1 :: (pySplit (qNamePre ++
        (q.name ++ (questionRawB ++ (q.contents ++ questionRawC))))).map wsNorm)) (wsNorm l1)
      have s2 : wsNorm l1 <:+: l1 := by
        unfold wsNorm
        split_ifs
        · exact List.nil_infix
        · exact List.infix_rfl
      exact s1.isInfix.trans (s2.trans (infix_of_mem_pySplit _ l1 hl1))
    rw [countOcc_eq_zero marker _ (by decide)]
    intro hmar
    exact hRinf (hmar.trans hinf)
  rw [hmline, hzero]

theorem count_joinSep_tail (frags : List Str)
    (hall : ∀ f ∈ frags, countOcc marker f = 1) :
    countOcc marker (joinSep frags ++ '\n' :: ('\n' :: "</quiz>".toList)) =
      frags.length := by
  induction frags with
  | nil =>
    rw [show joinSep [] = ([] : Str) from rfl, List.nil_append]
    decide
  | cons f fs ih =>
    cases fs with
    | nil =>
      rw [show joinSep [f] = f from rfl,
        countOcc_append_nl marker f _ (by decide) (by decide), hall f (by simp),
        countOcc_cons_nl marker _ (by decide) (by decide),
        (by decide : countOcc marker "</quiz>".toList = 0)]
      rfl
    | cons f2 fs2 =>
      have hstep : joinSep (f :: f2 :: fs2) ++ '\n' :: ('\n' :: "</quiz>".toList) =
          f ++ '\n' :: ('\n' ::
            (joinSep (f2 :: fs2) ++ '\n' :: ('\n' :: "</quiz>".toList))) := by
        rw [show joinSep (f :: f2 :: fs2) = f ++ '\n' :: '\n' :: joinSep (f2 :: fs2)
          from rfl]
        simp [List.append_assoc]
      rw [hstep, countOcc_append_nl marker _ _ (by decide) (by decide),
        countOcc_cons_nl marker _ (by decide) (by decide),
        ih (fun x hx => hall x (by simp [hx])), hall f (by simp)]
      simp [List.length_cons]
      omega

/-- Claim C6 as amended: for a non-empty Quiz none of whose questions contain
the string `<question type="cloze">` in their name or contents, the document
is the fixed envelope around the fragments joined by a blank line in input
order, and it contains exactly one marker occurrence per question. -/
theorem claim_C6_amended (qz : Quiz) (hne : qz.questions ≠ [])
    (hsafe : ∀ q ∈ qz.questions, ¬ marker <:+: q.name ∧ ¬ marker <:+: q.contents) :
    quizChars qz =
      quizHeader ++ joinSep (qz.questions.map questionChars) ++ quizFooter ∧
    countOcc marker (quizChars qz) = qz.questions.length := by
  refine ⟨rfl, ?_⟩
  have _unused := hne
  have hfrag : ∀ f ∈ qz.questions.map questionChars, countOcc marker f = 1 := by
    intro f hf
    obtain ⟨q, hq, rfl⟩ := List.mem_map.1 hf
    exact questionChars_count q (hsafe q hq).1 (hsafe q hq).2
  have hhead : quizChars qz =
      "<?xml version=\"1.0\" encoding=\"UTF-8\"?><quiz>".toList ++ '\n' ::
        (joinSep (qz.questions.map questionChars) ++
          '\n' :: ('\n' :: "</quiz>".toList)) := by
    unfold quizChars quizHeader quizFooter
    rw [(by decide : ("<?xml version=\"1.0\" encoding=\"UTF-8\"?><quiz>\n".toList : Str) =
        "<?xml version=\"1.0\" encoding=\"UTF-8\"?><quiz>".toList ++ ['\n']),
      (by decide : ("\n\n</quiz>".toList : Str) = '\n' :: ('\n' :: "</quiz>".toList))]
    simp [List.append_assoc]
  rw [hhead, countOcc_append_nl marker _ _ (by decide) (by decide),
    (by decide :
      countOcc marker "<?xml version=\"1.0\" encoding=\"UTF-8\"?><quiz>".toList = 0),
    count_joinSep_tail _ hfrag, List.length_map]
  omega

/-- Claim C6 amended witness at a concrete one-question quiz. -/
theorem claim_C6_amended_witness :
    ((Quiz.mk [Question.mk "q1".toList "What?".toList]).questions ≠ [] ∧
      ∀ q ∈ (Quiz.mk [Question.mk "q1".toList "What?".toList]).questions,
        ¬ marker <:+: q.name ∧ ¬ marker <:+: q.contents) ∧
    (quizChars (Quiz.mk [Question.mk "q1".toList "What?".toList]) =
      quizHeader ++ joinSep ((Quiz.mk [Question.mk "q1".toList
        "What?".toList]).questions.map questionChars) ++ quizFooter ∧
    countOcc marker (quizChars (Quiz.mk [Question.mk "q1".toList "What?".toList])) =
      (Quiz.mk [Question.mk "q1".toList "What?".toList]).questions.length) :=
  ⟨⟨by decide, by decide⟩,
    claim_C6_amended (Quiz.mk [Question.mk "q1".toList "What?".toList])
      (by decide) (by decide)⟩

/-- Claim C7 amended witness at a concrete single-line question. -/
theorem claim_C7_amended_witness :
    ('\n' ∉ ("n1".toList : Str) ∧ '\n' ∉ ("hello".toList : Str)) ∧
    questionChars (Question.mk "n1".toList "hello".toList) =
      questionSpecChars (Question.mk "n1".toList "hello".toList) :=
  ⟨⟨by decide, by decide⟩,
    claim_C7_amended (Question.mk "n1".toList "hello".toList) (by decide) (by decide)⟩

end Moocloze
